import Mathlib

/-!
# bump: the version state machine of `src/index.js`

A shallow embedding of `parseVersion`, `generateVersion`, `bumpMajor`, `bumpMinor`,
`bumpPatch`, `bumpPre` and `runCmd`, and of the two computations of `Main` on the new version
(the version it derives by itself and the publish tag), followed by theorems about them.

Modelling conventions.

* A JavaScript string is the list of its characters (`JSString`).
* A JavaScript number is `JSNum`: `NaN`, an integer, or an infinity. The program only ever
  parses integers, adds one, compares and prints, and these operations follow the IEEE
  doubles of JavaScript: a parsed numeral and a sum are rounded to the nearest double
  (`roundToDouble`, ties to the even significand, infinite from `2 ^ 1024`), and a number is
  printed with the fewest digits that read back as the same double, in exponent form from
  `10 ^ 21`. `JSNum.int n` stands for a JavaScript number when `n` is a double; `-0` is
  identified with `0` (both are falsy, print as `0` and compare alike).
* `null` in a field is `none`.
* `throw` is `Except.error`.
* The module-level constant `localVer` (the `version` field of `package.json`) is an explicit
  first argument of every function that reads it.
* `execSync` is a parameter of `runCmd`: a function from the state of the world and a command
  to the state after and the error thrown, if any. The depth of the recursion of `runCmd` is
  not bounded in the model.
-/

namespace Bump

/-- A JavaScript string, as the list of its characters. -/
abbrev JSString := List Char

/-- A JavaScript number as the program uses it: `NaN`, an integer, or `Infinity`
(`inf false`) and `-Infinity` (`inf true`). -/
inductive JSNum where
  | nan
  | int (n : Int)
  | inf (negative : Bool)
  deriving DecidableEq, Repr

/-- The number of binary digits of a natural number. -/
def bitLength (a : Nat) : Nat := (Nat.toDigits 2 a).length

/-- The double nearest to an integer, as a JavaScript number: integers up to `2 ^ 53` in
absolute value are doubles; beyond, the 53 leading bits are kept and the rest is rounded to
nearest, ties to the even significand; from `2 ^ 1024`, written `(2 ^ 256) ^ 4`, the result
is infinite. -/
def roundToDouble (n : Int) : JSNum :=
  let a := n.natAbs
  if a ≤ 2 ^ 53 then JSNum.int n
  else
    let e := bitLength a - 53
    let q := a / 2 ^ e
    let r := a % 2 ^ e
    let half := 2 ^ (e - 1)
    let q := if half < r ∨ (r = half ∧ q % 2 = 1) then q + 1 else q
    let v := q * 2 ^ e
    if (2 ^ 256) ^ 4 ≤ v then JSNum.inf (decide (n < 0))
    else JSNum.int (if n < 0 then -(v : Int) else (v : Int))

/-- The number of decimal digits of a natural number. -/
def decimalLength (a : Nat) : Nat := (Nat.toDigits 10 a).length

/-- The decimal integer with `k` significant digits (then zeros) that reads back as the
double `a`, if there is one: the multiple of the power of ten just below `a` or just above,
the closer of the two when both read back as `a`, the even one on a tie. -/
def candidate (a k : Nat) : Option Nat :=
  let p := 10 ^ (decimalLength a - k)
  let lo := a / p * p
  let hi := lo + p
  if roundToDouble (lo : Int) = JSNum.int a then
    if roundToDouble (hi : Int) = JSNum.int a then
      if a - lo < hi - a then some lo
      else if hi - a < a - lo then some hi
      else if (a / p) % 2 = 0 then some lo
      else some hi
    else some lo
  else if roundToDouble (hi : Int) = JSNum.int a then some hi
  else none

/-- The search for the fewest significant digits, from `k` digits on, for at most `fuel`
sizes. -/
def shortestFrom (a : Nat) : Nat → Nat → Nat
  | 0, _ => a
  | fuel + 1, k =>
    match candidate a k with
    | some y => y
    | none => shortestFrom a fuel (k + 1)

/-- The decimal integer with the fewest significant digits that reads back as the double
`a`: one digit is tried first, then two, up to seventeen, which always suffice. -/
def shortestDecimal (a : Nat) : Nat := shortestFrom a 17 1

/-- The text of a decimal integer as JavaScript prints a number: all its digits below
`10 ^ 21`, and from there the exponent form, `1e+21` or `1.5e+21`. -/
def formatDecimal (y : Nat) : JSString :=
  if y < 10 ^ 21 then Nat.toDigits 10 y
  else
    match ((Nat.toDigits 10 y).reverse.dropWhile (fun c => c = '0')).reverse with
    | [] => []
    | [d] => d :: 'e' :: '+' :: Nat.toDigits 10 (decimalLength y - 1)
    | d :: rest => d :: '.' :: rest ++ 'e' :: '+' :: Nat.toDigits 10 (decimalLength y - 1)

/-- The text of a double that is a natural number: up to `2 ^ 53` its decimal digits, which
are then the fewest that read back; beyond, the fewest digits that read back. -/
def natToJSString (a : Nat) : JSString :=
  if a ≤ 2 ^ 53 then Nat.toDigits 10 a else formatDecimal (shortestDecimal a)

namespace JSNum

/-- The JS expression `x + 1` (also `x += 1`) on a number: the sum is rounded to the
nearest double. -/
def addOne : JSNum → JSNum
  | nan => nan
  | int n => roundToDouble (n + 1)
  | inf negative => inf negative

/-- The JS expression `a < b` on numbers: false as soon as one side is `NaN`. -/
def lt : JSNum → JSNum → Bool
  | int a, int b => decide (a < b)
  | int _, inf false => true
  | inf true, int _ => true
  | inf true, inf false => true
  | _, _ => false

/-- The JS function `isNaN` on a number. -/
def isNaN : JSNum → Bool
  | nan => true
  | int _ => false
  | inf _ => false

/-- The JS expression `x || 0` on a number: `NaN` and `0` are falsy. -/
def orZero : JSNum → JSNum
  | nan => int 0
  | int n => int n
  | inf negative => inf negative

/-- The JS conversion of a number to a string, as used by a template literal. -/
def toJSString : JSNum → JSString
  | nan => ['N', 'a', 'N']
  | int n => if n < 0 then '-' :: natToJSString n.natAbs else natToJSString n.natAbs
  | inf false => "Infinity".toList
  | inf true => "-Infinity".toList

end JSNum

/-- The characters `parseInt` skips at the start of its input (ECMAScript `StrWhiteSpaceChar`:
white space, line terminators and the Unicode space separators). -/
def isStrWhiteSpace (c : Char) : Bool :=
  [0x09, 0x0A, 0x0B, 0x0C, 0x0D, 0x20, 0xA0, 0x1680, 0x2028, 0x2029, 0x202F, 0x205F,
    0x3000, 0xFEFF].contains c.toNat || (0x2000 ≤ c.toNat && c.toNat ≤ 0x200A)

/-- The value of a character as a digit: `0-9`, then `a-z` or `A-Z` for ten to thirty-five. -/
def digitValue (c : Char) : Option Nat :=
  if 48 ≤ c.toNat ∧ c.toNat ≤ 57 then some (c.toNat - 48)
  else if 97 ≤ c.toNat ∧ c.toNat ≤ 122 then some (c.toNat - 87)
  else if 65 ≤ c.toNat ∧ c.toNat ≤ 90 then some (c.toNat - 55)
  else none

/-- Whether a character is a digit of the given radix. -/
def isRadixDigit (radix : Nat) (c : Char) : Bool :=
  match digitValue c with
  | some d => decide (d < radix)
  | none => false

/-- The sign step of `parseInt`: a leading `-` or `+` is removed, `-` makes the sign `-1`. -/
def stripSign : JSString → Int × JSString
  | [] => (1, [])
  | c :: r => if c = '-' then (-1, r) else if c = '+' then (1, r) else (1, c :: r)

/-- The radix step of `parseInt` called without a radix: a leading `0x` or `0X` is removed
and selects radix 16, anything else is read in radix 10. -/
def stripHex : JSString → Nat × JSString
  | c :: d :: r => if c = '0' ∧ (d = 'x' ∨ d = 'X') then (16, r) else (10, c :: d :: r)
  | s => (10, s)

/-- The integer a list of digits denotes in the given radix. -/
def digitsValue (radix : Nat) (z : JSString) : Nat :=
  z.foldl (fun acc c => acc * radix + (digitValue c).getD 0) 0

/-- The JS function `parseInt(string)` with no radix argument, on a string: the integer
that the digits denote, rounded to the nearest double. (The standard lets an implementation
read the decimal digits after the twentieth as zeros; here every digit counts. The two agree
on numerals of at most twenty digits and on every numeral that `toJSString` prints.) -/
def parseInt (input : JSString) : JSNum :=
  let s := input.dropWhile isStrWhiteSpace
  let (sign, s) := stripSign s
  let (radix, s) := stripHex s
  let z := s.takeWhile (isRadixDigit radix)
  if z.isEmpty then JSNum.nan else roundToDouble (sign * (digitsValue radix z : Nat))

/-- The call `parseInt(x)` where `x` is a string or `undefined`: the argument is first
converted to a string, and `undefined` becomes the text `undefined`. -/
def parseIntArg : Option JSString → JSNum
  | some s => parseInt s
  | none => parseInt "undefined".toList

/-- The JS call `s.split(sep)` for a one-character separator. -/
def split (sep : Char) : JSString → List JSString
  | [] => [[]]
  | c :: cs =>
    if c = sep then [] :: split sep cs
    else
      match split sep cs with
      | [] => [[c]]
      | h :: t => (c :: h) :: t

/-- The object `pre` of a version. `type` and `value` are `null` (`none`) or set; `patch`
records the stray property `pre.patch`, which is absent (`false`) until a bump assigns
`null` to it (`true`). -/
structure Pre where
  type : Option JSString
  value : Option JSNum
  patch : Bool
  deriving DecidableEq, Repr

/-- The object returned by `parseVersion`. -/
structure Version where
  major : JSNum
  minor : JSNum
  patch : JSNum
  pre : Pre
  raw : JSString
  deriving DecidableEq, Repr

/-- The JS expression `version || localVer`: an absent or empty argument falls back to
the version of `package.json`. -/
def versionOrLocal (version : Option JSString) (localVer : JSString) : JSString :=
  match version with
  | none => localVer
  | some [] => localVer
  | some (c :: cs) => c :: cs

/-- The function `parseVersion` of `src/index.js`. -/
def parseVersion (localVer : JSString) (version : Option JSString) : Version :=
  let version := versionOrLocal version localVer
  let basic := (split '-' version).headD []
  let parts := split '.' basic
  let pre : Pre :=
    match (split '-' version).get? 1 with
    | some (c :: cs) =>
      let tv := split '.' (c :: cs)
      { type := some (tv.headD []), value := some (parseIntArg (tv.get? 1)), patch := false }
    | _ => { type := none, value := none, patch := false }
  { major := parseIntArg (parts.get? 0)
    minor := parseIntArg (parts.get? 1)
    patch := parseIntArg (parts.get? 2)
    pre := pre
    raw := version }

/-- The JS expression `version.pre.value || 0`: `null`, `NaN` and `0` are falsy. -/
def preValueOrZero : Option JSNum → JSNum
  | none => JSNum.int 0
  | some n => n.orZero

/-- The function `generateVersion` of `src/index.js`. -/
def generateVersion (version : Version) : JSString :=
  let str := version.major.orZero.toJSString ++ '.' :: version.minor.orZero.toJSString
    ++ '.' :: version.patch.orZero.toJSString
  match version.pre.type with
  | some type => str ++ '-' :: type ++ '.' :: (preValueOrZero version.pre.value).toJSString
  | none => str

/-- The argument `type` of a bump function: `undefined` (argument absent), `true` (what the
command line gives for a flag without a value) or a string (the value given with the flag). -/
inductive Directive where
  | undefined
  | bare
  | str (s : JSString)
  deriving DecidableEq, Repr

/-- The conversion of a directive to a string that `parseInt` performs on its argument. -/
def Directive.toJSString : Directive → JSString
  | Directive.undefined => "undefined".toList
  | Directive.bare => "true".toList
  | Directive.str s => s

/-- The JS test `type === 'alpha' || type === 'a'`. -/
def Directive.isAlpha (type : Directive) : Bool :=
  decide (type = Directive.str "alpha".toList) || decide (type = Directive.str "a".toList)

/-- The JS test `type === 'beta' || type === 'b'`. -/
def Directive.isBeta (type : Directive) : Bool :=
  decide (type = Directive.str "beta".toList) || decide (type = Directive.str "b".toList)

/-- The JS test `type === 'rc' || type === 'pre' || type === 'r'`. -/
def Directive.isRc (type : Directive) : Bool :=
  decide (type = Directive.str "rc".toList) || decide (type = Directive.str "pre".toList)
    || decide (type = Directive.str "r".toList)

/-- What the bump functions throw: the string thrown on a downgrade, or the `Error` built
for a pre-release name that is not supported (it carries the offending directive). -/
inductive Thrown where
  | downgrade
  | unsupported (type : Directive)
  deriving DecidableEq, Repr

/-- Equality of results is decidable, so that results can be compared by evaluation. -/
instance instDecidableEqResult : DecidableEq (Except Thrown Version) := fun a b =>
  match a, b with
  | Except.ok x, Except.ok y =>
    if h : x = y then isTrue (by rw [h]) else isFalse (fun h2 => h (by cases h2; rfl))
  | Except.error x, Except.error y =>
    if h : x = y then isTrue (by rw [h]) else isFalse (fun h2 => h (by cases h2; rfl))
  | Except.ok _, Except.error _ => isFalse (fun h => by cases h)
  | Except.error _, Except.ok _ => isFalse (fun h => by cases h)

/-- The closing block shared by `bumpMajor`, `bumpMinor` and `bumpPatch`: when `pre.type`
is not `null`, `pre.patch` and `pre.value` are set to `null`. -/
def clearPre (version : Version) : Version :=
  match version.pre.type with
  | some _ => { version with pre := { version.pre with patch := true, value := none } }
  | none => version

/-- The step `if (type === 'alpha' || type === 'a')` shared by the three bump functions. -/
def setAlpha (type : Directive) (version : Version) : Version :=
  if type.isAlpha then
    { version with pre := { version.pre with type := some "alpha".toList,
                                             value := some (JSNum.int 0) } }
  else version

/-- The function `bumpMajor` of `src/index.js`. -/
def bumpMajor (localVer : JSString) (type : Directive) (version : Option JSString) :
    Except Thrown Version :=
  let version := parseVersion localVer version
  let currentMajor := version.major
  let version := { version with major := version.major.addOne, minor := JSNum.int 0,
                                patch := JSNum.int 0, pre := { version.pre with type := none } }
  let version := setAlpha type version
  let n := parseInt type.toJSString
  if n.isNaN then Except.ok (clearPre version)
  else if n.lt currentMajor then Except.error Thrown.downgrade
  else Except.ok (clearPre { version with major := n })

/-- The function `bumpMinor` of `src/index.js`. -/
def bumpMinor (localVer : JSString) (type : Directive) (version : Option JSString) :
    Except Thrown Version :=
  let version := parseVersion localVer version
  let currentMinor := version.minor
  let version := { version with minor := version.minor.addOne, patch := JSNum.int 0,
                                pre := { version.pre with type := none } }
  let version := setAlpha type version
  let n := parseInt type.toJSString
  if n.isNaN then Except.ok (clearPre version)
  else if n.lt currentMinor then Except.error Thrown.downgrade
  else Except.ok (clearPre { version with minor := n })

/-- The property `version.path` that `bumpPatch` reads: the object built by `parseVersion`
has no such property, so the read gives `undefined`, which a comparison converts to `NaN`. -/
def Version.path (_version : Version) : JSNum := JSNum.nan

/-- The function `bumpPatch` of `src/index.js`. -/
def bumpPatch (localVer : JSString) (type : Directive) (version : Option JSString) :
    Except Thrown Version :=
  let version := parseVersion localVer version
  let currentPatch := version.path
  let version := { version with patch := version.patch.addOne,
                                pre := { version.pre with type := none } }
  let version := setAlpha type version
  let n := parseInt type.toJSString
  if n.isNaN then Except.ok (clearPre version)
  else if n.lt currentPatch then Except.error Thrown.downgrade
  else Except.ok (clearPre { version with patch := n })

/-- The JS statement `version.pre.value += 1`: `null` counts as `0`. -/
def preValueAddOne : Option JSNum → Option JSNum
  | none => some (JSNum.int 1)
  | some n => some n.addOne

/-- The function `bumpPre` of `src/index.js`. The two calls `bumpPatch('alpha')` pass no
version, so they work on `localVer`. -/
def bumpPre (localVer : JSString) (type : Directive) (version : Option JSString) :
    Except Thrown Version :=
  let version := parseVersion localVer version
  let currentType := version.pre.type
  if type = Directive.bare ∧ currentType = none then
    bumpPatch localVer (Directive.str "alpha".toList) none
  else if type.isAlpha then
    if currentType = some "beta".toList ∨ currentType = some "rc".toList then
      Except.error Thrown.downgrade
    else if currentType ≠ some "alpha".toList then
      bumpPatch localVer (Directive.str "alpha".toList) none
    else
      Except.ok { version with pre := { version.pre with
        type := some "alpha".toList, value := preValueAddOne version.pre.value } }
  else if type.isBeta then
    if currentType = some "rc".toList then Except.error Thrown.downgrade
    else
      let value := if currentType ≠ some "beta".toList then some (JSNum.int (-1))
        else version.pre.value
      Except.ok { version with pre := { version.pre with
        type := some "beta".toList, value := preValueAddOne value } }
  else if type.isRc then
    let value := if currentType ≠ some "rc".toList then some (JSNum.int (-1))
      else version.pre.value
    Except.ok { version with pre := { version.pre with
      type := some "rc".toList, value := preValueAddOne value } }
  else if type = Directive.bare then
    Except.ok { version with pre := { version.pre with
      value := preValueAddOne version.pre.value } }
  else Except.error (Thrown.unsupported type)

/-- The three pre-release names of the data model. -/
inductive PreName where
  | alpha
  | beta
  | rc
  deriving DecidableEq, Repr

/-- The text of a pre-release name. -/
def PreName.toJSString : PreName → JSString
  | PreName.alpha => "alpha".toList
  | PreName.beta => "beta".toList
  | PreName.rc => "rc".toList

/-- The core `MAJOR.MINOR.PATCH` of a well-formed version string. -/
def coreString (major minor patch : Nat) : JSString :=
  Nat.toDigits 10 major ++ '.' :: Nat.toDigits 10 minor ++ '.' :: Nat.toDigits 10 patch

/-- The text `MAJOR.MINOR.PATCH`, followed by `-TYPE.VALUE` when a pre-release is given, for
an arbitrary text `TYPE`. -/
def textVersion (major minor patch : Nat) (pre : Option (JSString × Nat)) : JSString :=
  match pre with
  | none => coreString major minor patch
  | some (t, v) => coreString major minor patch ++ '-' :: (t ++ '.' :: Nat.toDigits 10 v)

/-- The well-formed version strings `MAJOR.MINOR.PATCH` and `MAJOR.MINOR.PATCH-TYPE.VALUE`,
with decimal components and a pre-release name of the data model. -/
def versionString (major minor patch : Nat) (pre : Option (PreName × Nat)) : JSString :=
  textVersion major minor patch (pre.map (fun q => (q.1.toJSString, q.2)))

/-- The `pre` object that `parseVersion` reads from the text `-TYPE.VALUE` (or its
absence): the value is the double nearest to the numeral. -/
def textPre : Option (JSString × Nat) → Pre
  | none => { type := none, value := none, patch := false }
  | some (t, v) => { type := some t, value := some (roundToDouble v), patch := false }

/-- A character is one of the ten decimal digits. -/
abbrev IsDec (c : Char) : Prop := 48 ≤ c.toNat ∧ c.toNat ≤ 57

/-- The `pre` object that a well-formed version string denotes. -/
def preOf (pre : Option (PreName × Nat)) : Pre :=
  textPre (pre.map (fun q => (q.1.toJSString, q.2)))

/-- A JS number that is `NaN` or an integer that is not negative. -/
def JSNum.IsNatOrNaN : JSNum → Prop
  | JSNum.nan => True
  | JSNum.int n => 0 ≤ n
  | JSNum.inf negative => negative = false

/-- A JS number that `x || 0` prints as a plain numeral: `NaN`, or an integer from `0` to
below `10 ^ 21` that is a double. -/
def JSNum.IsPlain : JSNum → Prop
  | JSNum.nan => True
  | JSNum.int n => 0 ≤ n ∧ n < 10 ^ 21 ∧ roundToDouble n = JSNum.int n
  | JSNum.inf _ => False

/-- The natural number whose decimal digits `x || 0` prints for a plain number `x`: `0` for
`NaN`, the integer itself up to `2 ^ 53`, and beyond the decimal integer with the fewest
digits that reads back as it. -/
def JSNum.printed : JSNum → Nat
  | JSNum.nan => 0
  | JSNum.int n => if n.natAbs ≤ 2 ^ 53 then n.natAbs else shortestDecimal n.natAbs
  | JSNum.inf _ => 0

/-- The versions that `generateVersion` prints in plain numerals: `major`, `minor` and
`patch` are `NaN` or doubles that are integers from `0` to below `10 ^ 21`, and when
`pre.type` is a string it holds neither `-` nor `.`, and `pre.value` is `null`, `NaN` or
such a double. -/
def Version.Printable (v : Version) : Prop :=
  v.major.IsPlain ∧ v.minor.IsPlain ∧ v.patch.IsPlain
    ∧ ∀ t, v.pre.type = some t →
        '-' ∉ t ∧ '.' ∉ t ∧ ∀ n, v.pre.value = some n → n.IsPlain

/-- A JS number that is an integer from `0` to below `10 ^ 21` and a double. -/
def JSNum.IsPlainInt (x : JSNum) : Prop :=
  ∃ n : Nat, x = JSNum.int n ∧ n < 10 ^ 21 ∧ roundToDouble n = JSNum.int n

/-- The data model of a version, with numbers that print as plain numerals: `major`,
`minor` and `patch` are integers from `0` to below `10 ^ 21` (and doubles); `pre.type` is
`null` and then `pre.value` is `null` too, or `pre.type` is one of `alpha`, `beta`, `rc`
and then `pre.value` is such an integer. -/
def Version.DataModel (v : Version) : Prop :=
  v.major.IsPlainInt ∧ v.minor.IsPlainInt ∧ v.patch.IsPlainInt
    ∧ ((v.pre.type = none ∧ v.pre.value = none)
      ∨ ∃ (t : PreName) (k : JSNum),
          v.pre.type = some t.toJSString ∧ v.pre.value = some k ∧ k.IsPlainInt)

/-- The directive names the pre-release type: `alpha` or `a`, `beta` or `b`, `rc`, `pre`
or `r`. -/
def Directive.names (type : Directive) : PreName → Bool
  | PreName.alpha => type.isAlpha
  | PreName.beta => type.isBeta
  | PreName.rc => type.isRc

/-- The rank of a pre-release type in the version order: `alpha`, then `beta`, then `rc`,
then a release (`pre.type` equal to `null`); any other text has no rank. -/
def preRank : Option JSString → Option Nat
  | none => some 3
  | some t =>
    if t = "alpha".toList then some 0
    else if t = "beta".toList then some 1
    else if t = "rc".toList then some 2
    else none

/-- One pre-release type comes strictly before another in the version order. -/
def rankLt (a b : Option JSString) : Bool :=
  match preRank a, preRank b with
  | some x, some y => decide (x < y)
  | _, _ => false

/-- One `pre.value` is strictly below another; `null` is below and above nothing. -/
def valueLt (a b : Option JSNum) : Bool :=
  match a, b with
  | some x, some y => x.lt y
  | _, _ => false

/-- The version order on major, then minor, then patch, then pre-release type: `a` is
strictly lower than `b`. -/
def Version.ltCore (a b : Version) : Bool :=
  a.major.lt b.major
    || (decide (a.major = b.major)
      && (a.minor.lt b.minor
        || (decide (a.minor = b.minor)
          && (a.patch.lt b.patch
            || (decide (a.patch = b.patch) && rankLt a.pre.type b.pre.type)))))

/-- The version order on major, then minor, then patch, then pre-release type, then
`pre.value` (compared between two pre-releases of the same type): `a` is strictly lower
than `b`. -/
def Version.lt (a b : Version) : Bool :=
  a.ltCore b
    || (decide (a.major = b.major) && decide (a.minor = b.minor) && decide (a.patch = b.patch)
      && decide (a.pre.type = b.pre.type) && decide (a.pre.type ≠ none)
      && valueLt a.pre.value b.pre.value)

/-- The data-model invariant on `pre`: `pre.value` is set exactly when `pre.type` is. -/
def Version.PreInvariant (v : Version) : Bool :=
  v.pre.value.isSome == v.pre.type.isSome

/-- The publish tag that `Main` computes (the three statements on `tag` before the command
list is built): `latest`, or `next` when the new version holds a `-`, unless the option
`--tag` is a string. The value of the option is `undefined`, `true` or a string. -/
def publishTag (tag : Directive) (newVer : JSString) : JSString :=
  let t := "latest".toList
  let t := if newVer.contains '-' then "next".toList else t
  match tag with
  | Directive.str s => s
  | _ => t

/-- The JS call `arr.join(sep)` for a one-character separator. -/
def join (sep : Char) : List JSString → JSString
  | [] => []
  | [x] => x
  | x :: y :: rest => x ++ sep :: join sep (y :: rest)

/-- The new version that `Main` computes when none of `--pre`, `--patch`, `--minor`,
`--major` is given: the last field of `localVer` between dots is read by `parseInt` and
replaced by that number plus one; `none` when the field is not a number and `Main` throws. -/
def autoVersion (localVer : JSString) : Option JSString :=
  let verNum := split '.' localVer
  let last := parseIntArg verNum.getLast?
  if last.isNaN then none
  else some (join '.' (verNum.dropLast ++ [last.addOne.toJSString]))

/-- The JS call `s.startsWith(t)`. -/
def startsWith : JSString → JSString → Bool
  | _, [] => true
  | [], _ :: _ => false
  | c :: s, d :: t => decide (c = d) && startsWith s t

/-- The third argument of `runCmd`: the flags `dry`, `nopush` and `nopublish`, each set
(`true`) or absent (`false`). -/
structure RunOptions where
  dry : Bool
  nopush : Bool
  nopublish : Bool
  deriving DecidableEq, Repr

/-- The function `runCmd` of `src/index.js`. The call `execSync(cmd)` is the parameter
`execSync`: from the state of the world before and the command it gives the state after,
and the error it throws if the command fails. Console output is not part of the model. -/
def runCmd {σ ε : Type} (execSync : σ → JSString → σ × Option ε) (arr : List JSString)
    (line : Nat) (opts : RunOptions) (w : σ) : σ × Option ε :=
  if h : line < arr.length then
    let cmd := arr[line]
    if cmd.isEmpty then (w, none)
    else
      let r : σ × Option ε :=
        if !(opts.nopush && startsWith cmd "git push".toList)
            && !(opts.nopublish && startsWith cmd "npm publish".toList) then
          if !opts.dry then execSync w cmd else (w, none)
        else (w, none)
      match r with
      | (w1, some err) => (w1, some err)
      | (w1, none) =>
        match arr[line + 1]? with
        | some (_ :: _) => runCmd execSync arr (line + 1) opts w1
        | _ => (w1, none)
  else (w, none)
termination_by arr.length - line

/-- A command is skipped: `nopush` is set and it starts with `git push`, or `nopublish` is
set and it starts with `npm publish`. -/
def skipped (opts : RunOptions) (cmd : JSString) : Bool :=
  (opts.nopush && startsWith cmd "git push".toList)
    || (opts.nopublish && startsWith cmd "npm publish".toList)

/-- The commands of a list are executed one after the other, each once, in list order,
until one fails: the state of the world after, and the error of the failing command. -/
def execAll {σ ε : Type} (execSync : σ → JSString → σ × Option ε) :
    List JSString → σ → σ × Option ε
  | [], w => (w, none)
  | cmd :: rest, w =>
    match execSync w cmd with
    | (w1, some err) => (w1, some err)
    | (w1, none) => execAll execSync rest w1

/-- The commands of a list that come before its first empty string. -/
def beforeEmpty (arr : List JSString) : List JSString :=
  arr.takeWhile (fun cmd => !cmd.isEmpty)

/-- The commands of a list that are not skipped. -/
def notSkipped (opts : RunOptions) (arr : List JSString) : List JSString :=
  arr.filter (fun cmd => !skipped opts cmd)

/-- An executor that records each command it is given and never fails. -/
def recordExec (w : List JSString) (cmd : JSString) : List JSString × Option Unit :=
  (w ++ [cmd], none)

/-- An executor that records each command it is given and fails on the command `false`. -/
def recordExecFalse (w : List JSString) (cmd : JSString) : List JSString × Option Unit :=
  (w ++ [cmd], if cmd = "false".toList then some () else none)

/-- A natural number is a safe integer of JavaScript: at most `2 ^ 53 - 1`, so that it and
its successor are doubles. -/
abbrev IsSafe (n : Nat) : Prop := n < 2 ^ 53

/-- The pre-release value of a well-formed version, when there is one, is a safe integer. -/
def IsSafePre (pre : Option (PreName × Nat)) : Prop :=
  ∀ t n, pre = some (t, n) → IsSafe n

/-! ## Decimal numerals -/

theorem isDec_digitChar (d : Nat) (h : d < 10) : IsDec (Nat.digitChar d) := by
  unfold IsDec
  interval_cases d <;> decide

theorem digitValue_digitChar (d : Nat) (h : d < 10) : digitValue (Nat.digitChar d) = some d := by
  interval_cases d <;> decide

theorem toDigitsCore_append (fuel : Nat) : ∀ (n : Nat) (ds : List Char),
    Nat.toDigitsCore 10 fuel n ds = Nat.toDigitsCore 10 fuel n [] ++ ds := by
  induction fuel with
  | zero => intro n ds; simp [Nat.toDigitsCore]
  | succ k ih =>
    intro n ds
    simp only [Nat.toDigitsCore]
    split
    · simp
    · rw [ih (n / 10) (Nat.digitChar (n % 10) :: ds), ih (n / 10) [Nat.digitChar (n % 10)]]
      simp

theorem toDigitsCore_isDec (fuel : Nat) : ∀ (n : Nat),
    ∀ c ∈ Nat.toDigitsCore 10 fuel n [], IsDec c := by
  induction fuel with
  | zero => intro n c hc; simp [Nat.toDigitsCore] at hc
  | succ k ih =>
    intro n c hc
    simp only [Nat.toDigitsCore] at hc
    split at hc
    · simp at hc
      rw [hc]; exact isDec_digitChar _ (Nat.mod_lt _ (by decide))
    · rw [toDigitsCore_append] at hc
      simp at hc
      rcases hc with hc | hc
      · exact ih _ c hc
      · rw [hc]; exact isDec_digitChar _ (Nat.mod_lt _ (by decide))

theorem digitsValue_append_single (xs : JSString) (c : Char) :
    digitsValue 10 (xs ++ [c]) = digitsValue 10 xs * 10 + (digitValue c).getD 0 := by
  simp [digitsValue, List.foldl_append]

theorem toDigitsCore_value (fuel : Nat) : ∀ (n : Nat), n < fuel →
    digitsValue 10 (Nat.toDigitsCore 10 fuel n []) = n := by
  induction fuel with
  | zero => intro n h; omega
  | succ k ih =>
    intro n h
    simp only [Nat.toDigitsCore]
    split
    · rename_i h0
      simp [digitsValue, digitValue_digitChar _ (Nat.mod_lt n (by decide : 0 < 10))]
      omega
    · rename_i h0
      rw [toDigitsCore_append, digitsValue_append_single, ih (n / 10) (by omega),
        digitValue_digitChar _ (Nat.mod_lt n (by decide : 0 < 10))]
      simp
      omega

theorem toDigits_isDec (n : Nat) : ∀ c ∈ Nat.toDigits 10 n, IsDec c :=
  toDigitsCore_isDec (n + 1) n

theorem toDigits_value (n : Nat) : digitsValue 10 (Nat.toDigits 10 n) = n :=
  toDigitsCore_value (n + 1) n (Nat.lt_succ_self n)

theorem toDigits_ne_nil (n : Nat) : Nat.toDigits 10 n ≠ [] := by
  unfold Nat.toDigits
  simp only [Nat.toDigitsCore]
  split
  · simp
  · rw [toDigitsCore_append]; simp

/-! ## `parseInt` on decimal numerals -/

theorem isStrWhiteSpace_of_isDec (c : Char) (h : IsDec c) : isStrWhiteSpace c = false := by
  unfold IsDec at h
  simp [isStrWhiteSpace]
  omega

theorem isRadixDigit_of_isDec (c : Char) (h : IsDec c) : isRadixDigit 10 c = true := by
  unfold IsDec at h
  simp [isRadixDigit, digitValue, h]
  omega

theorem ne_of_isDec (c d : Char) (h : IsDec c) (hd : ¬ IsDec d) : c ≠ d := by
  intro hcd
  rw [hcd] at h
  exact hd h

theorem takeWhile_isDec (z : JSString) (hall : ∀ c ∈ z, IsDec c) :
    z.takeWhile (isRadixDigit 10) = z := by
  induction z with
  | nil => rfl
  | cons c r ih =>
    have hc := isRadixDigit_of_isDec c (hall c (List.mem_cons_self c r))
    simp only [List.takeWhile, hc]
    rw [ih (fun d hd => hall d (List.mem_cons_of_mem c hd))]

theorem stripSign_isDec (c : Char) (r : JSString) (h : IsDec c) :
    stripSign (c :: r) = (1, c :: r) := by
  have h1 : c ≠ '-' := ne_of_isDec c '-' h (by decide)
  have h2 : c ≠ '+' := ne_of_isDec c '+' h (by decide)
  simp [stripSign, h1, h2]

theorem stripHex_isDec (z : JSString) (hall : ∀ c ∈ z, IsDec c) : stripHex z = (10, z) := by
  match z with
  | [] => rfl
  | [_] => rfl
  | c :: d :: r =>
    have hd : IsDec d := hall d (by simp)
    have h1 : d ≠ 'x' := ne_of_isDec d 'x' hd (by decide)
    have h2 : d ≠ 'X' := ne_of_isDec d 'X' hd (by decide)
    simp [stripHex, h1, h2]

theorem roundToDouble_of_le (n : Int) (h : n.natAbs ≤ 2 ^ 53) :
    roundToDouble n = JSNum.int n := by
  unfold roundToDouble
  exact if_pos h

theorem roundToDouble_nat (n : Nat) (h : n ≤ 2 ^ 53) :
    roundToDouble (n : Int) = JSNum.int n :=
  roundToDouble_of_le n (by simpa using h)

theorem parseInt_isDec (z : JSString) (hne : z ≠ []) (hall : ∀ c ∈ z, IsDec c) :
    parseInt z = roundToDouble (digitsValue 10 z : Nat) := by
  match z, hne, hall with
  | c :: r, _, hall =>
    have hc : IsDec c := hall c (List.mem_cons_self c r)
    have hw := isStrWhiteSpace_of_isDec c hc
    unfold parseInt
    simp only [List.dropWhile, hw, stripSign_isDec c r hc, stripHex_isDec (c :: r) hall,
      takeWhile_isDec (c :: r) hall]
    simp

theorem parseInt_toDigits (n : Nat) : parseInt (Nat.toDigits 10 n) = roundToDouble n := by
  rw [parseInt_isDec _ (toDigits_ne_nil n) (toDigits_isDec n), toDigits_value]

theorem parseInt_toDigits_exact (n : Nat) (h : n ≤ 2 ^ 53) :
    parseInt (Nat.toDigits 10 n) = JSNum.int n := by
  rw [parseInt_toDigits, roundToDouble_nat n h]

theorem natToJSString_exact (n : Nat) (h : n ≤ 2 ^ 53) :
    natToJSString n = Nat.toDigits 10 n := by
  unfold natToJSString
  exact if_pos h

theorem toJSString_nat (n : Nat) (h : n ≤ 2 ^ 53) :
    (JSNum.int n).toJSString = Nat.toDigits 10 n := by
  simp [JSNum.toJSString, natToJSString_exact n h]

theorem addOne_nat (n : Nat) (h : n < 2 ^ 53) :
    (JSNum.int n).addOne = JSNum.int (n + 1) := by
  have h2 : ((n : Int) + 1).natAbs ≤ 2 ^ 53 := by
    have : ((n : Int) + 1).natAbs = n + 1 := by omega
    rw [this]; omega
  simp [JSNum.addOne, roundToDouble_of_le _ h2]

/-! ## `split` -/

theorem split_of_not_mem (sep : Char) (xs : JSString) (h : sep ∉ xs) : split sep xs = [xs] := by
  induction xs with
  | nil => rfl
  | cons c r ih =>
    have hc : c ≠ sep := fun e => h (by simp [e])
    have hr : sep ∉ r := fun e => h (List.mem_cons_of_mem c e)
    simp [split, hc, ih hr]

theorem split_append (sep : Char) (xs ys : JSString) (h : sep ∉ xs) :
    split sep (xs ++ sep :: ys) = xs :: split sep ys := by
  induction xs with
  | nil => simp [split]
  | cons c r ih =>
    have hc : c ≠ sep := fun e => h (by simp [e])
    have hr : sep ∉ r := fun e => h (List.mem_cons_of_mem c e)
    simp [split, hc, ih hr]

theorem not_mem_toDigits (sep : Char) (hsep : ¬ IsDec sep) (n : Nat) :
    sep ∉ Nat.toDigits 10 n :=
  fun h => hsep (toDigits_isDec n sep h)


/-! ## `parseVersion` on well-formed version strings -/

theorem preName_no_dash (t : PreName) : '-' ∉ t.toJSString := by
  cases t <;> decide

theorem preName_no_dot (t : PreName) : '.' ∉ t.toJSString := by
  cases t <;> decide

theorem dash_not_mem_core (M m p : Nat) : '-' ∉ coreString M m p := by
  have h := not_mem_toDigits '-' (by decide)
  simp [coreString, h M, h m, h p]

theorem split_dot_core (M m p : Nat) :
    split '.' (coreString M m p) = [Nat.toDigits 10 M, Nat.toDigits 10 m, Nat.toDigits 10 p] := by
  have h := not_mem_toDigits '.' (by decide)
  unfold coreString
  simp only [List.append_assoc, List.cons_append]
  rw [split_append _ _ _ (h M), split_append _ _ _ (h m), split_of_not_mem _ _ (h p)]

theorem split_dash_textVersion_none (M m p : Nat) :
    split '-' (textVersion M m p none) = [coreString M m p] :=
  split_of_not_mem _ _ (dash_not_mem_core M m p)

theorem split_dash_textVersion_some (M m p : Nat) (t : JSString) (v : Nat)
    (ht : '-' ∉ t) :
    split '-' (textVersion M m p (some (t, v)))
      = [coreString M m p, t ++ '.' :: Nat.toDigits 10 v] := by
  have h : '-' ∉ t ++ '.' :: Nat.toDigits 10 v := by
    simp [ht, not_mem_toDigits '-' (by decide) v]
  show split '-' (coreString M m p ++ '-' :: (t ++ '.' :: Nat.toDigits 10 v)) = _
  rw [split_append _ _ _ (dash_not_mem_core M m p), split_of_not_mem _ _ h]

theorem parseVersion_textVersion (localVer : JSString) (version : Option JSString)
    (M m p : Nat) (pre : Option (JSString × Nat))
    (hpre : ∀ t v, pre = some (t, v) → '-' ∉ t ∧ '.' ∉ t)
    (hv : versionOrLocal version localVer = textVersion M m p pre) :
    parseVersion localVer version =
      { major := roundToDouble M, minor := roundToDouble m, patch := roundToDouble p,
        pre := textPre pre, raw := textVersion M m p pre } := by
  unfold parseVersion
  simp only [hv]
  match pre, hpre with
  | none, _ =>
    simp [split_dash_textVersion_none, split_dot_core, parseIntArg, parseInt_toDigits, textPre]
  | some (t, v), hpre =>
    obtain ⟨hdash, hdot⟩ := hpre t v rfl
    have hsplit : split '.' (t ++ '.' :: Nat.toDigits 10 v) = [t, Nat.toDigits 10 v] := by
      rw [split_append _ _ _ hdot, split_of_not_mem _ _ (not_mem_toDigits '.' (by decide) v)]
    obtain ⟨c, cs, hc⟩ : ∃ c cs, t ++ '.' :: Nat.toDigits 10 v = c :: cs := by
      cases t with
      | nil => exact ⟨_, _, rfl⟩
      | cons a r => exact ⟨_, _, rfl⟩
    rw [split_dash_textVersion_some M m p t v hdash, hc]
    simp only [List.get?, List.headD]
    rw [← hc, hsplit]
    simp [split_dot_core, parseIntArg, parseInt_toDigits, textPre]

theorem parseVersion_versionString (localVer : JSString) (version : Option JSString)
    (M m p : Nat) (pre : Option (PreName × Nat))
    (hv : versionOrLocal version localVer = versionString M m p pre) :
    parseVersion localVer version =
      { major := roundToDouble M, minor := roundToDouble m, patch := roundToDouble p,
        pre := preOf pre, raw := versionString M m p pre } := by
  apply parseVersion_textVersion localVer version M m p _ _ hv
  intro t v h
  match pre, h with
  | some (n, w), h =>
    simp at h
    rw [← h.1]
    exact ⟨preName_no_dash n, preName_no_dot n⟩

theorem preOf_safe (pre : Option (PreName × Nat)) (hs : IsSafePre pre) :
    preOf pre = match pre with
      | none => { type := none, value := none, patch := false }
      | some (t, n) => { type := some t.toJSString, value := some (JSNum.int n),
                         patch := false } := by
  match pre, hs with
  | none, _ => rfl
  | some (t, n), hs =>
    have h : n ≤ 2 ^ 53 := Nat.le_of_lt (hs t n rfl)
    simp [preOf, textPre, roundToDouble_nat n h]

/-- On a well-formed version string whose major, minor and patch are safe integers,
`parseVersion` reads them exactly. -/
theorem parseVersion_safe (localVer : JSString) (version : Option JSString)
    (M m p : Nat) (pre : Option (PreName × Nat))
    (hv : versionOrLocal version localVer = versionString M m p pre)
    (hM : IsSafe M) (hm : IsSafe m) (hp : IsSafe p) :
    parseVersion localVer version =
      { major := JSNum.int M, minor := JSNum.int m, patch := JSNum.int p,
        pre := preOf pre, raw := versionString M m p pre } := by
  rw [parseVersion_versionString localVer version M m p pre hv,
    roundToDouble_nat M (Nat.le_of_lt hM), roundToDouble_nat m (Nat.le_of_lt hm),
    roundToDouble_nat p (Nat.le_of_lt hp)]


/-! ## Directives -/

theorem parseInt_undefined : parseInt Directive.undefined.toJSString = JSNum.nan := by decide

theorem parseInt_bare : parseInt Directive.bare.toJSString = JSNum.nan := by decide

theorem parseInt_alpha : parseInt (Directive.str "alpha".toList).toJSString = JSNum.nan := by
  decide

theorem parseInt_a : parseInt (Directive.str "a".toList).toJSString = JSNum.nan := by decide

theorem isAlpha_iff (type : Directive) :
    type.isAlpha = true ↔ type = Directive.str "alpha".toList ∨ type = Directive.str "a".toList := by
  simp [Directive.isAlpha]

theorem isAlpha_of_parseInt (type : Directive) (n : Int)
    (hn : parseInt type.toJSString = JSNum.int n) : type.isAlpha = false := by
  cases h : type.isAlpha with
  | false => rfl
  | true =>
    rcases (isAlpha_iff type).1 h with e | e
    · rw [e, parseInt_alpha] at hn; cases hn
    · rw [e, parseInt_a] at hn; cases hn

/-! ## The bump operations on well-formed versions -/

theorem addOne_safe (n : Nat) (h : IsSafe n) :
    (JSNum.int n).addOne = JSNum.int ((n : Int) + 1) := by
  have := addOne_nat n h
  simpa using this

/-- C1 (counterexample): on the current version `9007199254740992.0.0`, `bumpMajor` with
`true` returns major `9007199254740992`, not the major plus one: the sum is not a double
and is rounded back. -/
theorem bumpMajor_beyond_safe_integers :
    ∃ w, bumpMajor [] Directive.bare (some "9007199254740992.0.0".toList) = Except.ok w
      ∧ w.major = JSNum.int 9007199254740992
      ∧ w.major ≠ JSNum.int (9007199254740992 + 1) :=
  ⟨_, rfl, rfl, by decide⟩

/-- C1 (amended): on a well-formed current version `M.m.p` (with or without `-TYPE.VALUE`)
whose major, minor and patch are safe integers, given either as the argument or as the
version of `package.json`, and with the bare increment directive (`undefined` or `true`):
`bumpMajor` returns major `M + 1`, minor `0`, patch `0`; `bumpMinor` returns major `M`,
minor `m + 1`, patch `0`; `bumpPatch` returns major `M`, minor `m`, patch `p + 1`; each
with `pre.type` equal to `null`. -/
theorem bump_bare_increment (localVer : JSString) (version : Option JSString)
    (type : Directive) (M m p : Nat) (pre : Option (PreName × Nat))
    (hv : versionOrLocal version localVer = versionString M m p pre)
    (hM : IsSafe M) (hm : IsSafe m) (hp : IsSafe p)
    (ht : type = Directive.undefined ∨ type = Directive.bare) :
    (∃ v, bumpMajor localVer type version = Except.ok v ∧ v.major = JSNum.int (M + 1)
        ∧ v.minor = JSNum.int 0 ∧ v.patch = JSNum.int 0 ∧ v.pre.type = none)
    ∧ (∃ v, bumpMinor localVer type version = Except.ok v ∧ v.major = JSNum.int M
        ∧ v.minor = JSNum.int (m + 1) ∧ v.patch = JSNum.int 0 ∧ v.pre.type = none)
    ∧ (∃ v, bumpPatch localVer type version = Except.ok v ∧ v.major = JSNum.int M
        ∧ v.minor = JSNum.int m ∧ v.patch = JSNum.int (p + 1) ∧ v.pre.type = none) := by
  have hpv := parseVersion_safe localVer version M m p pre hv hM hm hp
  have hnan : parseInt type.toJSString = JSNum.nan := by
    rcases ht with e | e <;> rw [e] <;> decide
  have halpha : type.isAlpha = false := by
    rcases ht with e | e <;> rw [e] <;> decide
  refine ⟨?_, ?_, ?_⟩
  · simp [bumpMajor, hpv, hnan, halpha, setAlpha, clearPre, JSNum.isNaN, addOne_safe M hM]
  · simp [bumpMinor, hpv, hnan, halpha, setAlpha, clearPre, JSNum.isNaN, addOne_safe m hm]
  · simp [bumpPatch, hpv, hnan, halpha, setAlpha, clearPre, JSNum.isNaN, addOne_safe p hp]

/-- Witness of C1: the version `1.2.3-beta.4` of `package.json`, bumped with `true`. -/
theorem bump_bare_increment_witness :
    (∃ v, bumpMajor "1.2.3-beta.4".toList Directive.bare none = Except.ok v
        ∧ v.major = JSNum.int ((1 : Nat) + 1)
        ∧ v.minor = JSNum.int 0 ∧ v.patch = JSNum.int 0 ∧ v.pre.type = none)
    ∧ (∃ v, bumpMinor "1.2.3-beta.4".toList Directive.bare none = Except.ok v
        ∧ v.major = JSNum.int (1 : Nat)
        ∧ v.minor = JSNum.int ((2 : Nat) + 1) ∧ v.patch = JSNum.int 0 ∧ v.pre.type = none)
    ∧ (∃ v, bumpPatch "1.2.3-beta.4".toList Directive.bare none = Except.ok v
        ∧ v.major = JSNum.int (1 : Nat)
        ∧ v.minor = JSNum.int (2 : Nat) ∧ v.patch = JSNum.int ((3 : Nat) + 1)
        ∧ v.pre.type = none) :=
  bump_bare_increment "1.2.3-beta.4".toList none Directive.bare 1 2 3 (some (PreName.beta, 4))
    (by decide) (by decide) (by decide) (by decide) (Or.inr rfl)

theorem lt_nan (n : JSNum) : n.lt JSNum.nan = false := by
  cases n with
  | nan => rfl
  | int k => rfl
  | inf b => cases b <;> rfl

theorem bumpPatch_isOk (localVer : JSString) (type : Directive) (version : Option JSString) :
    ∃ v, bumpPatch localVer type version = Except.ok v := by
  unfold bumpPatch
  simp only [Version.path, lt_nan]
  split <;> simp

/-- C2 (evaluation of the code where the claim fails): on the current version `1.2.3` the
explicit target `2` is below the current patch `3`, and `bumpPatch` returns the version
`1.2.2` instead of throwing. The comparison is made against `version.path`, a property that
does not exist, so it is never true. -/
theorem bumpPatch_accepts_lower_target :
    bumpPatch "1.2.3".toList (Directive.str "2".toList) none
      = Except.ok { major := JSNum.int 1, minor := JSNum.int 2, patch := JSNum.int 2,
                    pre := { type := none, value := none, patch := false },
                    raw := "1.2.3".toList } := by
  decide

/-- C3 (counterexample): on the current version `9007199254740993.0.0` the explicit target
`9007199254740992` is below the current major, and `bumpMajor` returns a version instead of
throwing: both numerals are read as the same double, so the comparison is false. -/
theorem bumpMajor_misses_downgrade_beyond_safe :
    ∃ w, bumpMajor [] (Directive.str "9007199254740992".toList)
        (some "9007199254740993.0.0".toList) = Except.ok w
      ∧ w.major = JSNum.int 9007199254740992 :=
  ⟨_, rfl, rfl⟩

/-- C3 (amended): on a well-formed current version `M.m.p` whose major and minor are safe
integers, with a directive that `parseInt` reads as the integer `n`: `bumpMajor` throws the
downgrade error when `n < M`, and `bumpMinor` throws it when `n < m`. -/
theorem bumpMajor_bumpMinor_downgrade (localVer : JSString) (version : Option JSString)
    (type : Directive) (M m p : Nat) (pre : Option (PreName × Nat)) (n : Int)
    (hv : versionOrLocal version localVer = versionString M m p pre)
    (hM : IsSafe M) (hm : IsSafe m)
    (hn : parseInt type.toJSString = JSNum.int n) :
    (n < M → bumpMajor localVer type version = Except.error Thrown.downgrade)
    ∧ (n < m → bumpMinor localVer type version = Except.error Thrown.downgrade) := by
  have hpv := parseVersion_versionString localVer version M m p pre hv
  rw [roundToDouble_nat M (Nat.le_of_lt hM), roundToDouble_nat m (Nat.le_of_lt hm)] at hpv
  constructor
  · intro h
    simp [bumpMajor, hpv, hn, JSNum.isNaN, JSNum.lt, h]
  · intro h
    simp [bumpMinor, hpv, hn, JSNum.isNaN, JSNum.lt, h]

/-- Witness of C3: the current version `3.4.5` and the explicit target `2`. -/
theorem bumpMajor_bumpMinor_downgrade_witness :
    bumpMajor "0.0.0".toList (Directive.str "2".toList) (some "3.4.5".toList)
        = Except.error Thrown.downgrade
    ∧ bumpMinor "0.0.0".toList (Directive.str "2".toList) (some "3.4.5".toList)
        = Except.error Thrown.downgrade :=
  have h := bumpMajor_bumpMinor_downgrade "0.0.0".toList (some "3.4.5".toList)
    (Directive.str "2".toList) 3 4 5 none 2 (by decide) (by decide) (by decide) (by decide)
  ⟨h.1 (by decide), h.2 (by decide)⟩

/-- C4 (counterexample): on the current version `1.2.3`, `bumpMajor` with the explicit
target `9007199254740993` sets the major to `9007199254740992`, not to the target: the
numeral is not a double and is rounded. -/
theorem bumpMajor_target_rounded :
    ∃ w, bumpMajor [] (Directive.str "9007199254740993".toList) (some "1.2.3".toList)
        = Except.ok w
      ∧ w.major = JSNum.int 9007199254740992
      ∧ w.major ≠ JSNum.int 9007199254740993 :=
  ⟨_, rfl, rfl, by decide⟩

/-- C4 (amended): on a well-formed current version `M.m.p` whose major, minor and patch are
safe integers, with a directive that `parseInt` reads as the safe integer `n`: when
`M ≤ n`, `bumpMajor` returns the version `n.0.0`; when `m ≤ n`, `bumpMinor` returns
`M.n.0`; when `p ≤ n`, `bumpPatch` returns `M.m.n`; each with `pre.type` equal to
`null`. -/
theorem bump_explicit_target (localVer : JSString) (version : Option JSString)
    (type : Directive) (M m p : Nat) (pre : Option (PreName × Nat)) (n : Nat)
    (hv : versionOrLocal version localVer = versionString M m p pre)
    (hM : IsSafe M) (hm : IsSafe m) (hp : IsSafe p) (hsn : IsSafe n)
    (hn : parseInt type.toJSString = JSNum.int n) :
    (M ≤ n → ∃ v, bumpMajor localVer type version = Except.ok v ∧ v.major = JSNum.int n
        ∧ v.minor = JSNum.int 0 ∧ v.patch = JSNum.int 0 ∧ v.pre.type = none
        ∧ generateVersion v = versionString n 0 0 none)
    ∧ (m ≤ n → ∃ v, bumpMinor localVer type version = Except.ok v ∧ v.major = JSNum.int M
        ∧ v.minor = JSNum.int n ∧ v.patch = JSNum.int 0 ∧ v.pre.type = none
        ∧ generateVersion v = versionString M n 0 none)
    ∧ (p ≤ n → ∃ v, bumpPatch localVer type version = Except.ok v ∧ v.major = JSNum.int M
        ∧ v.minor = JSNum.int m ∧ v.patch = JSNum.int n ∧ v.pre.type = none
        ∧ generateVersion v = versionString M m n none) := by
  have hpv := parseVersion_safe localVer version M m p pre hv hM hm hp
  have halpha := isAlpha_of_parseInt type n hn
  have h0 : (JSNum.int 0).toJSString = Nat.toDigits 10 0 := toJSString_nat 0 (by decide)
  have hMs := toJSString_nat M (Nat.le_of_lt hM)
  have hms := toJSString_nat m (Nat.le_of_lt hm)
  have hns := toJSString_nat n (Nat.le_of_lt hsn)
  refine ⟨?_, ?_, ?_⟩
  · intro h
    have h2 : ¬ ((n : Int) < M) := by omega
    simp [bumpMajor, hpv, hn, halpha, setAlpha, clearPre, JSNum.isNaN, JSNum.lt, h2,
      generateVersion, JSNum.orZero, hns, h0, versionString, textVersion, coreString]
  · intro h
    have h2 : ¬ ((n : Int) < m) := by omega
    simp [bumpMinor, hpv, hn, halpha, setAlpha, clearPre, JSNum.isNaN, JSNum.lt, h2,
      generateVersion, JSNum.orZero, hMs, hns, h0, versionString, textVersion, coreString]
  · intro _
    simp [bumpPatch, hpv, hn, halpha, setAlpha, clearPre, JSNum.isNaN, Version.path, lt_nan,
      generateVersion, JSNum.orZero, hMs, hms, hns, h0, versionString, textVersion,
      coreString]

/-- Witness of C4: the current version `1.2.3-alpha.0` and the explicit target `7`. -/
theorem bump_explicit_target_witness :
    (∃ v, bumpMajor "1.2.3-alpha.0".toList (Directive.str "7".toList) none = Except.ok v
        ∧ v.major = JSNum.int (7 : Nat) ∧ v.minor = JSNum.int 0 ∧ v.patch = JSNum.int 0
        ∧ v.pre.type = none ∧ generateVersion v = versionString 7 0 0 none)
    ∧ (∃ v, bumpMinor "1.2.3-alpha.0".toList (Directive.str "7".toList) none = Except.ok v
        ∧ v.major = JSNum.int (1 : Nat) ∧ v.minor = JSNum.int (7 : Nat) ∧ v.patch = JSNum.int 0
        ∧ v.pre.type = none ∧ generateVersion v = versionString 1 7 0 none)
    ∧ (∃ v, bumpPatch "1.2.3-alpha.0".toList (Directive.str "7".toList) none = Except.ok v
        ∧ v.major = JSNum.int (1 : Nat) ∧ v.minor = JSNum.int (2 : Nat)
        ∧ v.patch = JSNum.int (7 : Nat)
        ∧ v.pre.type = none ∧ generateVersion v = versionString 1 2 7 none) :=
  have h := bump_explicit_target "1.2.3-alpha.0".toList none (Directive.str "7".toList)
    1 2 3 (some (PreName.alpha, 0)) 7 (by decide) (by decide) (by decide) (by decide)
    (by decide) (by decide)
  ⟨h.1 (by decide), h.2.1 (by decide), h.2.2 (by decide)⟩

/-- C5 (evaluation of the code where the claim fails): on the current version `1.2.3` and
the directive `alpha`, `bumpMajor`, `bumpMinor` and `bumpPatch` return the next major, minor
and patch with `pre.type` equal to `alpha`, but with `pre.value` equal to `null`, not `0`:
the closing block of each function resets the value that the alpha step has just set. -/
theorem bump_alpha_value_null :
    bumpMajor "1.2.3".toList (Directive.str "alpha".toList) none
      = Except.ok { major := JSNum.int 2, minor := JSNum.int 0, patch := JSNum.int 0,
                    pre := { type := some "alpha".toList, value := none, patch := true },
                    raw := "1.2.3".toList }
    ∧ bumpMinor "1.2.3".toList (Directive.str "alpha".toList) none
      = Except.ok { major := JSNum.int 1, minor := JSNum.int 3, patch := JSNum.int 0,
                    pre := { type := some "alpha".toList, value := none, patch := true },
                    raw := "1.2.3".toList }
    ∧ bumpPatch "1.2.3".toList (Directive.str "a".toList) none
      = Except.ok { major := JSNum.int 1, minor := JSNum.int 2, patch := JSNum.int 4,
                    pre := { type := some "alpha".toList, value := none, patch := true },
                    raw := "1.2.3".toList } := by
  decide



/-! ## Printing a number and reading it back -/

theorem candidate_spec (a k y : Nat) (h : candidate a k = some y) :
    roundToDouble (y : Int) = JSNum.int a
      ∧ (y = a / 10 ^ (decimalLength a - k) * 10 ^ (decimalLength a - k)
        ∨ y = a / 10 ^ (decimalLength a - k) * 10 ^ (decimalLength a - k)
              + 10 ^ (decimalLength a - k)) := by
  unfold candidate at h
  simp only [] at h
  split at h
  · rename_i hlo
    split at h
    · rename_i hhi
      split at h
      · cases h; exact ⟨hlo, Or.inl rfl⟩
      · split at h
        · cases h; exact ⟨hhi, Or.inr rfl⟩
        · split at h
          · cases h; exact ⟨hlo, Or.inl rfl⟩
          · cases h; exact ⟨hhi, Or.inr rfl⟩
    · cases h; exact ⟨hlo, Or.inl rfl⟩
  · split at h
    · rename_i hhi
      cases h; exact ⟨hhi, Or.inr rfl⟩
    · cases h

theorem shortestFrom_spec (a : Nat) (ha : roundToDouble (a : Int) = JSNum.int a) :
    ∀ (fuel k : Nat),
      roundToDouble (shortestFrom a fuel k : Int) = JSNum.int a
        ∧ (shortestFrom a fuel k = a
          ∨ ∃ j, j ≤ decimalLength a
              ∧ (shortestFrom a fuel k = a / 10 ^ j * 10 ^ j
                ∨ shortestFrom a fuel k = a / 10 ^ j * 10 ^ j + 10 ^ j)) := by
  intro fuel
  induction fuel with
  | zero => intro k; exact ⟨ha, Or.inl rfl⟩
  | succ f ih =>
    intro k
    unfold shortestFrom
    cases hc : candidate a k with
    | none => exact ih (k + 1)
    | some y =>
      obtain ⟨h1, h2⟩ := candidate_spec a k y hc
      exact ⟨h1, Or.inr ⟨decimalLength a - k, Nat.sub_le _ _, h2⟩⟩

theorem decimalLength_le (a : Nat) (h : a < 10 ^ 21) : decimalLength a ≤ 21 :=
  Nat.toDigitsCore_length 10 (by decide) (a + 1) a 21 h (by decide)

theorem multiple_le (a j : Nat) (h : a < 10 ^ 21) (hj : j ≤ 21) :
    a / 10 ^ j * 10 ^ j ≤ a ∧ a / 10 ^ j * 10 ^ j + 10 ^ j ≤ 10 ^ 21 := by
  have hpos : 0 < 10 ^ j := Nat.pow_pos (by decide)
  have hsplit : 10 ^ 21 = 10 ^ (21 - j) * 10 ^ j := by
    rw [← Nat.pow_add]; congr 1; omega
  constructor
  · exact Nat.div_mul_le_self a (10 ^ j)
  · have hlt : a / 10 ^ j < 10 ^ (21 - j) := by
      rw [Nat.div_lt_iff_lt_mul hpos, ← hsplit]; exact h
    calc a / 10 ^ j * 10 ^ j + 10 ^ j = (a / 10 ^ j + 1) * 10 ^ j := by ring
      _ ≤ 10 ^ (21 - j) * 10 ^ j := Nat.mul_le_mul_right _ hlt
      _ = 10 ^ 21 := hsplit.symm

theorem roundToDouble_pow21 : roundToDouble ((10 ^ 21 : Nat) : Int) = JSNum.int (10 ^ 21 : Nat) := by
  decide

/-- A double that is an integer below `10 ^ 21` is printed as the decimal digits of an
integer that reads back as it. -/
theorem natToJSString_plain (a : Nat) (h : a < 10 ^ 21)
    (ha : roundToDouble (a : Int) = JSNum.int a) :
    natToJSString a = Nat.toDigits 10 (JSNum.int a).printed
      ∧ roundToDouble ((JSNum.int a).printed : Int) = JSNum.int a := by
  by_cases hs : a ≤ 2 ^ 53
  · have e : (JSNum.int a).printed = a := by
      simp only [JSNum.printed, Int.natAbs_ofNat, if_pos hs]
    rw [e]
    exact ⟨natToJSString_exact a hs, ha⟩
  · have e : (JSNum.int a).printed = shortestDecimal a := by
      simp only [JSNum.printed, Int.natAbs_ofNat, if_neg hs]
    rw [e]
    obtain ⟨h1, h2⟩ := shortestFrom_spec a ha 17 1
    have hy : shortestDecimal a < 10 ^ 21 := by
      rcases h2 with h2 | ⟨j, hj, h2 | h2⟩
      · show shortestFrom a 17 1 < 10 ^ 21
        rw [h2]; exact h
      · show shortestFrom a 17 1 < 10 ^ 21
        rw [h2]
        exact Nat.lt_of_le_of_lt
          (multiple_le a j h (Nat.le_trans hj (decimalLength_le a h))).1 h
      · have hle := (multiple_le a j h (Nat.le_trans hj (decimalLength_le a h))).2
        rw [← h2] at hle
        rcases Nat.lt_or_eq_of_le hle with hlt | heq
        · exact hlt
        · exfalso
          rw [heq, roundToDouble_pow21] at h1
          have : ((10 ^ 21 : Nat) : Int) = (a : Int) := by
            injection h1
          have h3 : (10 ^ 21 : Nat) = a := by exact_mod_cast this
          omega
    refine ⟨?_, h1⟩
    unfold natToJSString formatDecimal
    rw [if_neg hs, if_pos hy]


/-! ## Round trips between `generateVersion` and `parseVersion` -/

theorem orZero_plain (x : JSNum) (h : x.IsPlain) :
    x.orZero.toJSString = Nat.toDigits 10 x.printed
      ∧ roundToDouble (x.printed : Int) = x.orZero := by
  cases x with
  | nan => exact ⟨rfl, rfl⟩
  | inf b => exact absurd h (by simp [JSNum.IsPlain])
  | int n =>
    obtain ⟨h0, h1, h2⟩ := h
    obtain ⟨a, rfl⟩ := Int.eq_ofNat_of_zero_le h0
    have ha : a < 10 ^ 21 := by exact_mod_cast h1
    have hneg : ¬ ((a : Int) < 0) := by omega
    have := natToJSString_plain a ha h2
    simp only [JSNum.orZero, JSNum.toJSString, hneg, if_false, Int.natAbs_ofNat]
    exact this

theorem preValueOrZero_plain (x : Option JSNum) (h : ∀ n, x = some n → n.IsPlain) :
    (preValueOrZero x).toJSString = Nat.toDigits 10 (preValueOrZero x).printed
      ∧ roundToDouble ((preValueOrZero x).printed : Int) = preValueOrZero x := by
  cases x with
  | none => exact ⟨rfl, rfl⟩
  | some n =>
    have hn := orZero_plain n (h n rfl)
    have e : (n.orZero).printed = n.printed := by
      cases n <;> rfl
    simp only [preValueOrZero]
    rw [e]
    exact hn

theorem generateVersion_printable (v : Version) (hv : v.Printable) :
    generateVersion v = textVersion v.major.printed v.minor.printed v.patch.printed
      (v.pre.type.map (fun t => (t, (preValueOrZero v.pre.value).printed))) := by
  obtain ⟨h1, h2, h3, h4⟩ := hv
  unfold generateVersion
  rw [(orZero_plain _ h1).1, (orZero_plain _ h2).1, (orZero_plain _ h3).1]
  cases ht : v.pre.type with
  | none => simp [textVersion, coreString]
  | some t =>
    rw [(preValueOrZero_plain _ (h4 t ht).2.2).1]
    simp [textVersion, coreString]

theorem versionOrLocal_textVersion (localVer : JSString) (M m p : Nat)
    (pre : Option (JSString × Nat)) :
    versionOrLocal (some (textVersion M m p pre)) localVer = textVersion M m p pre := by
  have hne : textVersion M m p pre ≠ [] := by
    have := toDigits_ne_nil M
    match pre with
    | none => simp [textVersion, coreString, this]
    | some (t, v) => simp [textVersion, coreString, this]
  cases h : textVersion M m p pre with
  | nil => exact absurd h hne
  | cons c cs => rfl

/-- What `parseVersion` reads from the string that `generateVersion` prints for a version
in plain numerals: every number as `x || 0` gave it. -/
theorem parseVersion_generateVersion (localVer : JSString) (v : Version) (hv : v.Printable) :
    parseVersion localVer (some (generateVersion v)) =
      { major := v.major.orZero, minor := v.minor.orZero, patch := v.patch.orZero,
        pre := match v.pre.type with
          | none => { type := none, value := none, patch := false }
          | some t => { type := some t, value := some (preValueOrZero v.pre.value),
                        patch := false },
        raw := generateVersion v } := by
  have hg := generateVersion_printable v hv
  rw [hg]
  obtain ⟨h1, h2, h3, h4⟩ := hv
  rw [parseVersion_textVersion localVer _ _ _ _ _ ?_ (versionOrLocal_textVersion _ _ _ _ _),
    (orZero_plain _ h1).2, (orZero_plain _ h2).2, (orZero_plain _ h3).2]
  · cases ht : v.pre.type with
    | none => rfl
    | some t =>
      simp only [Option.map, textPre]
      rw [(preValueOrZero_plain _ (h4 t ht).2.2).2]
  · intro t k h
    cases ht : v.pre.type with
    | none => rw [ht] at h; cases h
    | some u =>
      rw [ht] at h
      simp at h
      rw [← h.1]
      exact ⟨(h4 u ht).1, (h4 u ht).2.1⟩

theorem orZero_orZero (x : JSNum) : x.orZero.orZero = x.orZero := by
  cases x <;> rfl

/-- C6 (counterexample): the version with major `10 ^ 21`, minor `0`, patch `0` is printed
`1e+21.0.0`; `parseVersion` reads the major `1` from it, and printing again gives
`1.0.0`. -/
theorem generate_parse_generate_fails_from_1e21 :
    generateVersion
        { major := JSNum.int (10 ^ 21), minor := JSNum.int 0, patch := JSNum.int 0,
          pre := { type := none, value := none, patch := false }, raw := [] }
      = "1e+21.0.0".toList
    ∧ generateVersion (parseVersion [] (some (generateVersion
        { major := JSNum.int (10 ^ 21), minor := JSNum.int 0, patch := JSNum.int 0,
          pre := { type := none, value := none, patch := false }, raw := [] })))
      = "1.0.0".toList := by
  constructor <;> decide

/-- C6 (amended): for every version `v` printed in plain numerals (numbers that are `NaN`
or doubles from `0` to below `10 ^ 21`, a type without `-` and `.`), which includes every
version of the data model below `10 ^ 21`, generating its string, parsing that string and
generating again gives the string generated first. -/
theorem generate_parse_generate (localVer : JSString) (v : Version) (hv : v.Printable) :
    generateVersion (parseVersion localVer (some (generateVersion v))) = generateVersion v := by
  rw [parseVersion_generateVersion localVer v hv]
  unfold generateVersion
  simp only [orZero_orZero]
  cases ht : v.pre.type with
  | none => rfl
  | some t =>
    have e : preValueOrZero (some (preValueOrZero v.pre.value)) = preValueOrZero v.pre.value := by
      cases v.pre.value with
      | none => rfl
      | some n => exact orZero_orZero n
    simp only [e]

/-- Witness of C6: a version with a `NaN` minor and a pre-release `rc` without value. -/
theorem generate_parse_generate_witness :
    generateVersion (parseVersion "9.9.9".toList (some (generateVersion
        { major := JSNum.int 1, minor := JSNum.nan, patch := JSNum.int 0,
          pre := { type := some "rc".toList, value := none, patch := true }, raw := [] })))
      = generateVersion
        { major := JSNum.int 1, minor := JSNum.nan, patch := JSNum.int 0,
          pre := { type := some "rc".toList, value := none, patch := true }, raw := [] } :=
  generate_parse_generate "9.9.9".toList
    { major := JSNum.int 1, minor := JSNum.nan, patch := JSNum.int 0,
      pre := { type := some "rc".toList, value := none, patch := true }, raw := [] }
    ⟨⟨by decide, by decide, by decide⟩, trivial, ⟨by decide, by decide, by decide⟩,
      fun t ht => by
        simp at ht
        rw [← ht]
        exact ⟨by decide, by decide, fun n hn => by simp at hn⟩⟩


theorem isPlain_of_isPlainInt (x : JSNum) (h : x.IsPlainInt) : x.IsPlain ∧ x.orZero = x := by
  obtain ⟨n, rfl, h1, h2⟩ := h
  exact ⟨⟨Int.ofNat_nonneg n, by exact_mod_cast h1, h2⟩, rfl⟩

theorem printable_of_dataModel (v : Version) (hv : v.DataModel) : v.Printable := by
  obtain ⟨h1, h2, h3, h4⟩ := hv
  refine ⟨(isPlain_of_isPlainInt _ h1).1, (isPlain_of_isPlainInt _ h2).1,
    (isPlain_of_isPlainInt _ h3).1, ?_⟩
  intro t ht
  rcases h4 with ⟨hn, _⟩ | ⟨u, k, hu, hk, hplain⟩
  · rw [hn] at ht; cases ht
  · rw [hu] at ht
    simp only [Option.some.injEq] at ht
    rw [← ht]
    refine ⟨preName_no_dash u, preName_no_dot u, ?_⟩
    intro n hn
    rw [hk] at hn
    simp only [Option.some.injEq] at hn
    rw [← hn]
    exact (isPlain_of_isPlainInt _ hplain).1

/-- C7 (counterexample): the version with major `10 ^ 21`, minor `0`, patch `0` satisfies
the data model, and parsing the string generated for it gives the major `1`. -/
theorem parse_generate_fails_from_1e21 :
    (parseVersion [] (some (generateVersion
        { major := JSNum.int (10 ^ 21), minor := JSNum.int 0, patch := JSNum.int 0,
          pre := { type := none, value := none, patch := false }, raw := [] }))).major
      = JSNum.int 1
    ∧ JSNum.int 1 ≠ JSNum.int (10 ^ 21)
    ∧ roundToDouble (10 ^ 21) = JSNum.int (10 ^ 21) := by
  refine ⟨?_, ?_, ?_⟩ <;> decide

/-- C7 (amended): for every version `v` of the data model whose numbers are below
`10 ^ 21` (and doubles), parsing the string that `generateVersion` gives for `v` returns a
version with the same `major`, `minor`, `patch`, `pre.type` and `pre.value` as `v`. -/
theorem parse_generate (localVer : JSString) (v : Version) (hv : v.DataModel) :
    (parseVersion localVer (some (generateVersion v))).major = v.major
    ∧ (parseVersion localVer (some (generateVersion v))).minor = v.minor
    ∧ (parseVersion localVer (some (generateVersion v))).patch = v.patch
    ∧ (parseVersion localVer (some (generateVersion v))).pre.type = v.pre.type
    ∧ (parseVersion localVer (some (generateVersion v))).pre.value = v.pre.value := by
  rw [parseVersion_generateVersion localVer v (printable_of_dataModel v hv)]
  obtain ⟨h1, h2, h3, h4⟩ := hv
  refine ⟨(isPlain_of_isPlainInt _ h1).2, (isPlain_of_isPlainInt _ h2).2,
    (isPlain_of_isPlainInt _ h3).2, ?_, ?_⟩
  · cases v.pre.type <;> rfl
  · rcases h4 with ⟨hn, hval⟩ | ⟨u, k, hu, hk, hplain⟩
    · rw [hn, hval]
    · rw [hu, hk]
      simp only [preValueOrZero, (isPlain_of_isPlainInt _ hplain).2]

/-- Witness of C7: the version `1.0.3-beta.2`. -/
theorem parse_generate_witness :
    (parseVersion [] (some (generateVersion
        { major := JSNum.int 1, minor := JSNum.int 0, patch := JSNum.int 3,
          pre := { type := some "beta".toList, value := some (JSNum.int 2), patch := false },
          raw := [] }))).major = JSNum.int 1
    ∧ (parseVersion [] (some (generateVersion
        { major := JSNum.int 1, minor := JSNum.int 0, patch := JSNum.int 3,
          pre := { type := some "beta".toList, value := some (JSNum.int 2), patch := false },
          raw := [] }))).minor = JSNum.int 0
    ∧ (parseVersion [] (some (generateVersion
        { major := JSNum.int 1, minor := JSNum.int 0, patch := JSNum.int 3,
          pre := { type := some "beta".toList, value := some (JSNum.int 2), patch := false },
          raw := [] }))).patch = JSNum.int 3
    ∧ (parseVersion [] (some (generateVersion
        { major := JSNum.int 1, minor := JSNum.int 0, patch := JSNum.int 3,
          pre := { type := some "beta".toList, value := some (JSNum.int 2), patch := false },
          raw := [] }))).pre.type = some "beta".toList
    ∧ (parseVersion [] (some (generateVersion
        { major := JSNum.int 1, minor := JSNum.int 0, patch := JSNum.int 3,
          pre := { type := some "beta".toList, value := some (JSNum.int 2), patch := false },
          raw := [] }))).pre.value = some (JSNum.int 2) :=
  parse_generate []
    { major := JSNum.int 1, minor := JSNum.int 0, patch := JSNum.int 3,
      pre := { type := some "beta".toList, value := some (JSNum.int 2), patch := false },
      raw := [] }
    ⟨⟨1, rfl, by decide, by decide⟩, ⟨0, rfl, by decide, by decide⟩,
      ⟨3, rfl, by decide, by decide⟩,
      Or.inr ⟨PreName.beta, JSNum.int 2, rfl, rfl, ⟨2, rfl, by decide, by decide⟩⟩⟩


/-! ## `bumpPre` -/

/-- C8 (evaluation of the code where the claim fails): `bumpPre` called with `true` on the
current version `1.2.3`, while `package.json` holds `5.0.0`, returns the patch-alpha bump of
`5.0.0`, printed `5.0.1-alpha.0`, not that of `1.2.3`: the delegating call
`bumpPatch('alpha')` does not pass the version on. The same happens with `alpha`. -/
theorem bumpPre_delegation_drops_version :
    (bumpPre "5.0.0".toList Directive.bare (some "1.2.3".toList)).map generateVersion
      = Except.ok "5.0.1-alpha.0".toList
    ∧ (bumpPre "5.0.0".toList (Directive.str "alpha".toList) (some "1.2.3".toList)).map
        generateVersion = Except.ok "5.0.1-alpha.0".toList
    ∧ bumpPre "5.0.0".toList Directive.bare (some "1.2.3".toList)
      = Except.ok { major := JSNum.int 5, minor := JSNum.int 0, patch := JSNum.int 1,
                    pre := { type := some "alpha".toList, value := none, patch := true },
                    raw := "5.0.0".toList } := by
  refine ⟨?_, ?_, ?_⟩
  · rfl
  · rfl
  · decide

theorem isAlpha_not_isBeta (type : Directive) (h : type.isAlpha = true) :
    type.isBeta = false := by
  rcases (isAlpha_iff type).1 h with e | e <;> rw [e] <;> decide

/-- C9: on a well-formed current version and for every directive, `bumpPre` throws the
downgrade error when the directive is `alpha` or `a` and the current type is `beta` or `rc`,
or the directive is `beta` or `b` and the current type is `rc`; it throws the error for an
unsupported name when the directive is none of `true`, `alpha`, `a`, `beta`, `b`, `rc`,
`pre`, `r`; in every other case it returns a version. -/
theorem bumpPre_fails_exactly (localVer : JSString) (version : Option JSString)
    (type : Directive) (M m p : Nat) (pre : Option (PreName × Nat))
    (hv : versionOrLocal version localVer = versionString M m p pre) :
    ((type.isAlpha = true ∧ (pre.map Prod.fst = some PreName.beta
          ∨ pre.map Prod.fst = some PreName.rc)
        ∨ type.isBeta = true ∧ pre.map Prod.fst = some PreName.rc) →
      bumpPre localVer type version = Except.error Thrown.downgrade)
    ∧ ((type ≠ Directive.bare ∧ type.isAlpha = false ∧ type.isBeta = false
          ∧ type.isRc = false) →
      bumpPre localVer type version = Except.error (Thrown.unsupported type))
    ∧ (¬ (type.isAlpha = true ∧ (pre.map Prod.fst = some PreName.beta
            ∨ pre.map Prod.fst = some PreName.rc)
          ∨ type.isBeta = true ∧ pre.map Prod.fst = some PreName.rc) →
       ¬ (type ≠ Directive.bare ∧ type.isAlpha = false ∧ type.isBeta = false
          ∧ type.isRc = false) →
      ∃ v, bumpPre localVer type version = Except.ok v) := by
  have hp := parseVersion_versionString localVer version M m p pre hv
  have hok := bumpPatch_isOk localVer (Directive.str "alpha".toList) none
  refine ⟨?_, ?_, ?_⟩
  · rintro (⟨ha, hc⟩ | ⟨hb, hc⟩)
    · match pre, hc with
      | some (PreName.beta, k), _ =>
        simp [bumpPre, hp, preOf, textPre, PreName.toJSString, ha]
      | some (PreName.rc, k), _ =>
        simp [bumpPre, hp, preOf, textPre, PreName.toJSString, ha]
    · have ha : type.isAlpha = false := by
        cases h : type.isAlpha with
        | false => rfl
        | true => rw [isAlpha_not_isBeta type h] at hb; cases hb
      have hbare : type ≠ Directive.bare := by
        intro e; rw [e] at hb; revert hb; decide
      match pre, hc with
      | some (PreName.rc, k), _ =>
        simp [bumpPre, hp, preOf, textPre, PreName.toJSString, ha, hb, hbare]
  · rintro ⟨hbare, ha, hb, hr⟩
    simp [bumpPre, hp, ha, hb, hr, hbare]
  · intro hD hU
    by_cases hbare : type = Directive.bare
    · subst hbare
      match pre with
      | none => simpa [bumpPre, hp, preOf, textPre] using hok
      | some (t, k) =>
        cases t <;>
          simp [bumpPre, hp, preOf, textPre, PreName.toJSString, Directive.isAlpha,
            Directive.isBeta, Directive.isRc]
    · cases ha : type.isAlpha with
      | true =>
        match pre with
        | none => simpa [bumpPre, hp, preOf, textPre, ha, hbare] using hok
        | some (PreName.alpha, k) =>
          simp [bumpPre, hp, preOf, textPre, PreName.toJSString, ha, hbare]
        | some (PreName.beta, k) => exact absurd (Or.inl ⟨ha, Or.inl rfl⟩) hD
        | some (PreName.rc, k) => exact absurd (Or.inl ⟨ha, Or.inr rfl⟩) hD
      | false =>
        cases hb : type.isBeta with
        | true =>
          match pre with
          | none => simp [bumpPre, hp, preOf, textPre, ha, hb, hbare]
          | some (PreName.alpha, k) =>
            simp [bumpPre, hp, preOf, textPre, PreName.toJSString, ha, hb, hbare]
          | some (PreName.beta, k) =>
            simp [bumpPre, hp, preOf, textPre, PreName.toJSString, ha, hb, hbare]
          | some (PreName.rc, k) => exact absurd (Or.inr ⟨hb, rfl⟩) hD
        | false =>
          cases hr : type.isRc with
          | true => simp [bumpPre, hp, ha, hb, hr, hbare]
          | false => exact absurd ⟨hbare, ha, hb, hr⟩ hU

/-- Witness of C9: `1.2.4-beta.0` with `alpha` is a downgrade, `1.2.4` with `gamma` is an
unsupported name, and `1.2.4-rc.1` with `rc` returns a version. -/
theorem bumpPre_fails_exactly_witness :
    bumpPre "1.2.4-beta.0".toList (Directive.str "alpha".toList) none
        = Except.error Thrown.downgrade
    ∧ bumpPre [] (Directive.str "gamma".toList) (some "1.2.4".toList)
        = Except.error (Thrown.unsupported (Directive.str "gamma".toList))
    ∧ ∃ v, bumpPre "1.2.4-rc.1".toList (Directive.str "rc".toList) none = Except.ok v :=
  ⟨(bumpPre_fails_exactly "1.2.4-beta.0".toList none (Directive.str "alpha".toList) 1 2 4
      (some (PreName.beta, 0)) (by decide)).1 (Or.inl ⟨by decide, Or.inl rfl⟩),
   (bumpPre_fails_exactly [] (some "1.2.4".toList) (Directive.str "gamma".toList) 1 2 4
      none (by decide)).2.1 ⟨by decide, by decide, by decide, by decide⟩,
   (bumpPre_fails_exactly "1.2.4-rc.1".toList none (Directive.str "rc".toList) 1 2 4
      (some (PreName.rc, 1)) (by decide)).2.2 (by decide) (by decide)⟩

theorem isBeta_iff (type : Directive) :
    type.isBeta = true ↔ type = Directive.str "beta".toList ∨ type = Directive.str "b".toList := by
  simp [Directive.isBeta]

theorem isRc_iff (type : Directive) :
    type.isRc = true ↔ type = Directive.str "rc".toList ∨ type = Directive.str "pre".toList
      ∨ type = Directive.str "r".toList := by
  simp [Directive.isRc, or_assoc]

theorem addOne_neg_one : (JSNum.int (-1)).addOne = JSNum.int 0 := by decide

/-- The string printed for a version whose major, minor, patch and pre-release value are
the safe integers (or `2 ^ 53`) of a well-formed version string. -/
theorem generateVersion_exact (v : Version) (M m p : Nat) (pre : Option (PreName × Nat))
    (hM : v.major = JSNum.int M) (hm : v.minor = JSNum.int m) (hp : v.patch = JSNum.int p)
    (hMs : M ≤ 2 ^ 53) (hms : m ≤ 2 ^ 53) (hps : p ≤ 2 ^ 53)
    (hpre : match pre with
      | none => v.pre.type = none
      | some (t, k) => v.pre.type = some t.toJSString
          ∧ preValueOrZero v.pre.value = JSNum.int k ∧ k ≤ 2 ^ 53) :
    generateVersion v = versionString M m p pre := by
  have h (n : Nat) (hn : n ≤ 2 ^ 53) : (JSNum.int n).orZero.toJSString = Nat.toDigits 10 n := by
    simp only [JSNum.orZero]
    exact toJSString_nat n hn
  unfold generateVersion
  rw [hM, hm, hp, h M hMs, h m hms, h p hps]
  match pre, hpre with
  | none, hpre =>
    simp only [] at hpre
    rw [hpre]
    simp [versionString, textVersion, coreString]
  | some (t, k), hpre =>
    obtain ⟨h1, h2, h3⟩ := hpre
    rw [h1]
    simp only [h2, toJSString_nat k h3]
    simp [versionString, textVersion, coreString]

/-- C10: on a well-formed current version whose type is neither `beta` nor `rc`, `bumpPre`
with `beta` or `b` returns the current version with `pre.type` `beta` and `pre.value` `0`;
on one whose type is not `rc`, `bumpPre` with `rc`, `pre` or `r` returns it with `pre.type`
`rc` and `pre.value` `0`. In both cases major, minor and patch are those of the current
version, unchanged; when they are safe integers `M`, `m`, `p`, the version returned is
printed `M.m.p-beta.0`, or `M.m.p-rc.0`. -/
theorem bumpPre_fresh_cycle (localVer : JSString) (version : Option JSString)
    (type : Directive) (M m p : Nat) (pre : Option (PreName × Nat))
    (hv : versionOrLocal version localVer = versionString M m p pre) :
    (type.isBeta = true → pre.map Prod.fst ≠ some PreName.beta →
      pre.map Prod.fst ≠ some PreName.rc →
      ∃ v, bumpPre localVer type version = Except.ok v
        ∧ v.major = (parseVersion localVer version).major
        ∧ v.minor = (parseVersion localVer version).minor
        ∧ v.patch = (parseVersion localVer version).patch
        ∧ v.pre.type = some "beta".toList ∧ v.pre.value = some (JSNum.int 0)
        ∧ (IsSafe M → IsSafe m → IsSafe p →
            v.major = JSNum.int M ∧ v.minor = JSNum.int m ∧ v.patch = JSNum.int p
            ∧ generateVersion v = versionString M m p (some (PreName.beta, 0))))
    ∧ (type.isRc = true → pre.map Prod.fst ≠ some PreName.rc →
      ∃ v, bumpPre localVer type version = Except.ok v
        ∧ v.major = (parseVersion localVer version).major
        ∧ v.minor = (parseVersion localVer version).minor
        ∧ v.patch = (parseVersion localVer version).patch
        ∧ v.pre.type = some "rc".toList ∧ v.pre.value = some (JSNum.int 0)
        ∧ (IsSafe M → IsSafe m → IsSafe p →
            v.major = JSNum.int M ∧ v.minor = JSNum.int m ∧ v.patch = JSNum.int p
            ∧ generateVersion v = versionString M m p (some (PreName.rc, 0)))) := by
  have hpv := parseVersion_versionString localVer version M m p pre hv
  constructor
  · intro hb h1 h2
    have hbare : type ≠ Directive.bare := by
      intro e; rw [e] at hb; revert hb; decide
    have ha : type.isAlpha = false := by
      rcases (isBeta_iff type).1 hb with e | e <;> rw [e] <;> decide
    have hres : bumpPre localVer type version = Except.ok
        { major := roundToDouble M, minor := roundToDouble m, patch := roundToDouble p,
          pre := { preOf pre with type := some "beta".toList, value := some (JSNum.int 0) },
          raw := versionString M m p pre } := by
      match pre, h1, h2 with
      | none, _, _ =>
        simp [bumpPre, hpv, preOf, textPre, ha, hb, hbare, preValueAddOne, addOne_neg_one]
      | some (PreName.alpha, k), _, _ =>
        simp [bumpPre, hpv, preOf, textPre, PreName.toJSString, ha, hb, hbare,
          preValueAddOne, addOne_neg_one]
      | some (PreName.beta, k), h1, _ => exact absurd rfl h1
      | some (PreName.rc, k), _, h2 => exact absurd rfl h2
    refine ⟨_, hres, by rw [hpv], by rw [hpv], by rw [hpv], rfl, rfl, ?_⟩
    intro hM hm hp
    have eM := roundToDouble_nat M (Nat.le_of_lt hM)
    have em := roundToDouble_nat m (Nat.le_of_lt hm)
    have ep := roundToDouble_nat p (Nat.le_of_lt hp)
    exact ⟨eM, em, ep, generateVersion_exact _ M m p (some (PreName.beta, 0)) eM em ep
      (Nat.le_of_lt hM) (Nat.le_of_lt hm) (Nat.le_of_lt hp) ⟨rfl, rfl, by decide⟩⟩
  · intro hr h1
    have hbare : type ≠ Directive.bare := by
      intro e; rw [e] at hr; revert hr; decide
    have ha : type.isAlpha = false := by
      rcases (isRc_iff type).1 hr with e | e | e <;> rw [e] <;> decide
    have hb : type.isBeta = false := by
      rcases (isRc_iff type).1 hr with e | e | e <;> rw [e] <;> decide
    have hres : bumpPre localVer type version = Except.ok
        { major := roundToDouble M, minor := roundToDouble m, patch := roundToDouble p,
          pre := { preOf pre with type := some "rc".toList, value := some (JSNum.int 0) },
          raw := versionString M m p pre } := by
      match pre, h1 with
      | none, _ =>
        simp [bumpPre, hpv, preOf, textPre, ha, hb, hr, hbare, preValueAddOne, addOne_neg_one]
      | some (PreName.alpha, k), _ =>
        simp [bumpPre, hpv, preOf, textPre, PreName.toJSString, ha, hb, hr, hbare,
          preValueAddOne, addOne_neg_one]
      | some (PreName.beta, k), _ =>
        simp [bumpPre, hpv, preOf, textPre, PreName.toJSString, ha, hb, hr, hbare,
          preValueAddOne, addOne_neg_one]
      | some (PreName.rc, k), h1 => exact absurd rfl h1
    refine ⟨_, hres, by rw [hpv], by rw [hpv], by rw [hpv], rfl, rfl, ?_⟩
    intro hM hm hp
    have eM := roundToDouble_nat M (Nat.le_of_lt hM)
    have em := roundToDouble_nat m (Nat.le_of_lt hm)
    have ep := roundToDouble_nat p (Nat.le_of_lt hp)
    exact ⟨eM, em, ep, generateVersion_exact _ M m p (some (PreName.rc, 0)) eM em ep
      (Nat.le_of_lt hM) (Nat.le_of_lt hm) (Nat.le_of_lt hp) ⟨rfl, rfl, by decide⟩⟩

/-- Witness of C10: `1.2.4-alpha.0` with `beta` gives `1.2.4-beta.0`, and with `pre` gives
`1.2.4-rc.0`. -/
theorem bumpPre_fresh_cycle_witness :
    (∃ v, bumpPre "1.2.4-alpha.0".toList (Directive.str "beta".toList) none = Except.ok v
        ∧ v.major = JSNum.int (1 : Nat) ∧ v.minor = JSNum.int (2 : Nat)
        ∧ v.patch = JSNum.int (4 : Nat)
        ∧ v.pre.type = some "beta".toList ∧ v.pre.value = some (JSNum.int 0)
        ∧ generateVersion v = versionString 1 2 4 (some (PreName.beta, 0)))
    ∧ (∃ v, bumpPre "1.2.4-alpha.0".toList (Directive.str "pre".toList) none = Except.ok v
        ∧ v.major = JSNum.int (1 : Nat) ∧ v.minor = JSNum.int (2 : Nat)
        ∧ v.patch = JSNum.int (4 : Nat)
        ∧ v.pre.type = some "rc".toList ∧ v.pre.value = some (JSNum.int 0)
        ∧ generateVersion v = versionString 1 2 4 (some (PreName.rc, 0))) :=
  have h1 := (bumpPre_fresh_cycle "1.2.4-alpha.0".toList none (Directive.str "beta".toList)
      1 2 4 (some (PreName.alpha, 0)) (by decide)).1 (by decide) (by decide) (by decide)
  have h2 := (bumpPre_fresh_cycle "1.2.4-alpha.0".toList none (Directive.str "pre".toList)
      1 2 4 (some (PreName.alpha, 0)) (by decide)).2 (by decide) (by decide)
  ⟨h1.elim (fun v hv =>
      have hs := hv.2.2.2.2.2.2 (by decide) (by decide) (by decide)
      ⟨v, hv.1, hs.1, hs.2.1, hs.2.2.1, hv.2.2.2.2.1, hv.2.2.2.2.2.1, hs.2.2.2⟩),
   h2.elim (fun v hv =>
      have hs := hv.2.2.2.2.2.2 (by decide) (by decide) (by decide)
      ⟨v, hv.1, hs.1, hs.2.1, hs.2.2.1, hv.2.2.2.2.1, hv.2.2.2.2.2.1, hs.2.2.2⟩)⟩

/-! ## Supporting facts: the general behaviour behind the evaluations of C5 and C8 -/

theorem parseInt_of_isAlpha (type : Directive) (h : type.isAlpha = true) :
    parseInt type.toJSString = JSNum.nan := by
  rcases (isAlpha_iff type).1 h with e | e <;> rw [e] <;> decide

/-- On every well-formed current version whose major, minor and patch are safe integers,
the three bump functions called with `alpha` or `a` return the incremented version with
`pre.type` `alpha` and `pre.value` `null`. -/
theorem bump_alpha_general (localVer : JSString) (version : Option JSString)
    (type : Directive) (M m p : Nat) (pre : Option (PreName × Nat))
    (hv : versionOrLocal version localVer = versionString M m p pre)
    (hM : IsSafe M) (hm : IsSafe m) (hp : IsSafe p)
    (ht : type.isAlpha = true) :
    bumpMajor localVer type version
      = Except.ok { major := JSNum.int (M + 1), minor := JSNum.int 0, patch := JSNum.int 0,
                    pre := { type := some "alpha".toList, value := none, patch := true },
                    raw := versionString M m p pre }
    ∧ bumpMinor localVer type version
      = Except.ok { major := JSNum.int M, minor := JSNum.int (m + 1), patch := JSNum.int 0,
                    pre := { type := some "alpha".toList, value := none, patch := true },
                    raw := versionString M m p pre }
    ∧ bumpPatch localVer type version
      = Except.ok { major := JSNum.int M, minor := JSNum.int m, patch := JSNum.int (p + 1),
                    pre := { type := some "alpha".toList, value := none, patch := true },
                    raw := versionString M m p pre } := by
  have hpv := parseVersion_safe localVer version M m p pre hv hM hm hp
  have hnan := parseInt_of_isAlpha type ht
  refine ⟨?_, ?_, ?_⟩
  · simp [bumpMajor, hpv, hnan, ht, setAlpha, clearPre, JSNum.isNaN, addOne_safe M hM]
  · simp [bumpMinor, hpv, hnan, ht, setAlpha, clearPre, JSNum.isNaN, addOne_safe m hm]
  · simp [bumpPatch, hpv, hnan, ht, setAlpha, clearPre, JSNum.isNaN, addOne_safe p hp]

/-- On a well-formed current version without pre-release, `bumpPre` with `true`, `alpha` or
`a` returns whatever `bumpPatch('alpha')` returns on the version of `package.json`. -/
theorem bumpPre_delegates (localVer : JSString) (version : Option JSString)
    (type : Directive) (M m p : Nat)
    (hv : versionOrLocal version localVer = versionString M m p none)
    (ht : type = Directive.bare ∨ type.isAlpha = true) :
    bumpPre localVer type version = bumpPatch localVer (Directive.str "alpha".toList) none := by
  have hpv := parseVersion_versionString localVer version M m p none hv
  rcases ht with e | e
  · simp [bumpPre, hpv, e, preOf, textPre]
  · have hbare : type ≠ Directive.bare := by
      intro h; rw [h] at e; revert e; decide
    simp [bumpPre, hpv, e, hbare, preOf, textPre]

/-- When the current version `M.m.p` (safe integers) is the version of `package.json` and
no version is passed, `bumpPre` with `true`, `alpha` or `a` returns a version printed
`M.m.(p+1)-alpha.0`. -/
theorem bumpPre_enter_alpha_local (localVer : JSString) (type : Directive) (M m p : Nat)
    (hv : versionOrLocal none localVer = versionString M m p none)
    (hM : IsSafe M) (hm : IsSafe m) (hp : IsSafe p)
    (ht : type = Directive.bare ∨ type.isAlpha = true) :
    ∃ v, bumpPre localVer type none = Except.ok v ∧ v.major = JSNum.int M
      ∧ v.minor = JSNum.int m ∧ v.patch = JSNum.int (p + 1)
      ∧ v.pre.type = some "alpha".toList
      ∧ generateVersion v = versionString M m (p + 1) (some (PreName.alpha, 0)) := by
  rw [bumpPre_delegates localVer none type M m p hv ht]
  have h := (bump_alpha_general localVer none (Directive.str "alpha".toList) M m p none hv
    hM hm hp (by decide)).2.2
  refine ⟨_, h, rfl, rfl, rfl, rfl, ?_⟩
  have h1 (n : Nat) (hn : n ≤ 2 ^ 53) : (JSNum.int n).orZero.toJSString = Nat.toDigits 10 n := by
    simp only [JSNum.orZero]
    exact toJSString_nat n hn
  have h2 : (JSNum.int ((p : Int) + 1)).orZero.toJSString = Nat.toDigits 10 (p + 1) := by
    have := h1 (p + 1) hp
    simpa using this
  have h0 : (JSNum.int 0).toJSString = Nat.toDigits 10 0 := toJSString_nat 0 (by decide)
  simp [generateVersion, h1 M (Nat.le_of_lt hM), h1 m (Nat.le_of_lt hm), h2, h0,
    preValueOrZero, versionString, textVersion, coreString, PreName.toJSString]

/-! ## `bumpPre` inside a pre-release cycle -/

/-- C11 (counterexample): on the current version `1.2.4-alpha.9007199254740992`, `bumpPre`
with `true` returns `pre.value` `9007199254740992`, not the value plus one: the sum is not
a double and is rounded back. -/
theorem bumpPre_value_beyond_safe_integers :
    ∃ w, bumpPre "1.2.4-alpha.9007199254740992".toList Directive.bare none = Except.ok w
      ∧ w.pre.value = some (JSNum.int 9007199254740992)
      ∧ w.pre.value ≠ some (JSNum.int (9007199254740992 + 1)) :=
  ⟨_, rfl, rfl, by decide⟩

/-- C11 (amended): on a well-formed current version `M.m.p-t.n` whose pre-release value `n`
is a safe integer, `bumpPre` with `true`, or with a directive that names the current type
`t`, returns the current version as `parseVersion` reads it with `pre.value` equal to
`n + 1`: major, minor, patch, `pre.type` (and `raw`) are unchanged. When `M`, `m` and `p`
are safe integers too, the version returned has major `M`, minor `m`, patch `p` and is
printed `M.m.p-t.(n+1)`. -/
theorem bumpPre_increments_value (localVer : JSString) (version : Option JSString)
    (type : Directive) (M m p : Nat) (t : PreName) (n : Nat)
    (hv : versionOrLocal version localVer = versionString M m p (some (t, n)))
    (hn : IsSafe n)
    (ht : type = Directive.bare ∨ type.names t = true) :
    bumpPre localVer type version
      = Except.ok { parseVersion localVer version with
                    pre := { type := some t.toJSString, value := some (JSNum.int (n + 1)),
                             patch := false } }
    ∧ (IsSafe M → IsSafe m → IsSafe p →
      ∃ v, bumpPre localVer type version = Except.ok v
        ∧ v.major = JSNum.int M ∧ v.minor = JSNum.int m ∧ v.patch = JSNum.int p
        ∧ v.pre.type = some t.toJSString ∧ v.pre.value = some (JSNum.int (n + 1))
        ∧ generateVersion v = versionString M m p (some (t, n + 1))) := by
  have hpv := parseVersion_versionString localVer version M m p (some (t, n)) hv
  have hr := roundToDouble_nat n (Nat.le_of_lt hn)
  have ha := addOne_safe n hn
  suffices main : bumpPre localVer type version
      = Except.ok { parseVersion localVer version with
                    pre := { type := some t.toJSString, value := some (JSNum.int (n + 1)),
                             patch := false } } by
    refine ⟨main, fun hM hm hp => ⟨_, main, ?_⟩⟩
    have eM : (parseVersion localVer version).major = JSNum.int M := by
      rw [hpv]; exact roundToDouble_nat M (Nat.le_of_lt hM)
    have em : (parseVersion localVer version).minor = JSNum.int m := by
      rw [hpv]; exact roundToDouble_nat m (Nat.le_of_lt hm)
    have ep : (parseVersion localVer version).patch = JSNum.int p := by
      rw [hpv]; exact roundToDouble_nat p (Nat.le_of_lt hp)
    exact ⟨eM, em, ep, rfl, rfl, generateVersion_exact _ M m p (some (t, n + 1)) eM em ep
      (Nat.le_of_lt hM) (Nat.le_of_lt hm) (Nat.le_of_lt hp) ⟨rfl, rfl, hn⟩⟩
  rw [hpv]
  rcases ht with e | e
  · subst e
    cases t <;>
      simp [bumpPre, hpv, preOf, textPre, PreName.toJSString, Directive.isAlpha,
        Directive.isBeta, Directive.isRc, preValueAddOne, hr, ha]
  · cases t
    all_goals simp only [Directive.names] at e
    · rcases (isAlpha_iff type).1 e with h | h <;> subst h <;>
        simp [bumpPre, hpv, preOf, textPre, PreName.toJSString, Directive.isAlpha,
          Directive.isBeta, Directive.isRc, preValueAddOne, hr, ha]
    · rcases (isBeta_iff type).1 e with h | h <;> subst h <;>
        simp [bumpPre, hpv, preOf, textPre, PreName.toJSString, Directive.isAlpha,
          Directive.isBeta, Directive.isRc, preValueAddOne, hr, ha]
    · rcases (isRc_iff type).1 e with h | h | h <;> subst h <;>
        simp [bumpPre, hpv, preOf, textPre, PreName.toJSString, Directive.isAlpha,
          Directive.isBeta, Directive.isRc, preValueAddOne, hr, ha]

/-- Witness of C11: `1.2.4-alpha.2` with `true` becomes `1.2.4-alpha.3`. -/
theorem bumpPre_increments_value_witness :
    bumpPre "1.2.4-alpha.2".toList Directive.bare none
      = Except.ok { parseVersion "1.2.4-alpha.2".toList none with
                    pre := { type := some PreName.alpha.toJSString,
                             value := some (JSNum.int ((2 : Nat) + 1)), patch := false } }
    ∧ (∃ v, bumpPre "1.2.4-alpha.2".toList Directive.bare none = Except.ok v
        ∧ v.major = JSNum.int (1 : Nat) ∧ v.minor = JSNum.int (2 : Nat)
        ∧ v.patch = JSNum.int (4 : Nat)
        ∧ v.pre.type = some PreName.alpha.toJSString
        ∧ v.pre.value = some (JSNum.int ((2 : Nat) + 1))
        ∧ generateVersion v = versionString 1 2 4 (some (PreName.alpha, 2 + 1)))
    ∧ (bumpPre "1.2.4-alpha.2".toList Directive.bare none).map generateVersion
      = Except.ok "1.2.4-alpha.3".toList :=
  have h := bumpPre_increments_value "1.2.4-alpha.2".toList none Directive.bare 1 2 4
    PreName.alpha 2 (by decide) (by decide) (Or.inl rfl)
  ⟨h.1, h.2 (by decide) (by decide) (by decide), rfl⟩

/-! ## `bumpPre` and the version order -/

/-- C12 (counterexample): `bumpPre` with `beta` on the release `1.2.3` returns
`1.2.3-beta.0`, a pre-release of the same `1.2.3`, which is strictly lower than `1.2.3` in
the version order (and so not strictly greater); and on `1.2.3-alpha.9007199254740992` with
`true` it returns the same `pre.value`, because the value plus one is rounded back, so the
version returned is not strictly greater either. -/
theorem bumpPre_beta_on_release_moves_back :
    (∃ w, bumpPre [] (Directive.str "beta".toList) (some "1.2.3".toList) = Except.ok w
      ∧ generateVersion w = "1.2.3-beta.0".toList
      ∧ (parseVersion [] (some "1.2.3".toList)).lt w = false
      ∧ w.lt (parseVersion [] (some "1.2.3".toList)) = true)
    ∧ (∃ w, bumpPre [] Directive.bare (some "1.2.3-alpha.9007199254740992".toList)
        = Except.ok w
      ∧ generateVersion w = "1.2.3-alpha.9007199254740992".toList
      ∧ (parseVersion [] (some "1.2.3-alpha.9007199254740992".toList)).lt w = false) :=
  ⟨⟨_, rfl, by decide, by decide, by decide⟩, ⟨_, rfl, by decide, by decide⟩⟩

theorem bumpPre_some_lt (localVer : JSString) (version : Option JSString)
    (type : Directive) (M m p : Nat) (t : PreName) (n : Nat)
    (hv : versionOrLocal version localVer = versionString M m p (some (t, n)))
    (hM : IsSafe M) (hm : IsSafe m) (hp : IsSafe p) (hn : IsSafe n)
    (w : Version) (hw : bumpPre localVer type version = Except.ok w) :
    (parseVersion localVer version).lt w = true := by
  have hpv := parseVersion_safe localVer version M m p (some (t, n)) hv hM hm hp
  have hr := roundToDouble_nat n (Nat.le_of_lt hn)
  have ha := addOne_safe n hn
  rw [hpv]
  by_cases hbare : type = Directive.bare
  · subst hbare
    cases t <;>
      simp [bumpPre, hpv, preOf, textPre, PreName.toJSString, Directive.isAlpha,
        Directive.isBeta, Directive.isRc, preValueAddOne, hr, ha] at hw <;>
      subst hw <;>
      simp [Version.lt, Version.ltCore, valueLt, JSNum.lt, rankLt, preRank, preOf, textPre,
        PreName.toJSString, hr]
  · cases ha2 : type.isAlpha <;> cases hb : type.isBeta <;> cases hrc : type.isRc <;>
      cases t <;>
      simp [bumpPre, hpv, preOf, textPre, PreName.toJSString, ha2, hb, hrc, hbare,
        preValueAddOne, hr, ha, addOne_neg_one] at hw <;>
      subst hw <;>
      simp [Version.lt, Version.ltCore, valueLt, JSNum.lt, rankLt, preRank, preOf, textPre,
        PreName.toJSString, hr]

/-- C12 (amended): on a well-formed current version whose numbers are safe integers.
When it has a pre-release, every version that `bumpPre` returns is strictly greater than
the current one in the version order. When it is a release `M.m.p` and is the version of
`package.json`, `bumpPre` with `true`, `alpha` or `a` returns a strictly greater version,
printed `M.m.(p+1)-alpha.0`. When it is a release `M.m.p`, `bumpPre` with `beta` or `b`
returns the version printed `M.m.p-beta.0`, and with `rc`, `pre` or `r` the version printed
`M.m.p-rc.0`, each strictly lower than the current one. -/
theorem bumpPre_order (localVer : JSString) (version : Option JSString)
    (type : Directive) (M m p : Nat) (pre : Option (PreName × Nat))
    (hv : versionOrLocal version localVer = versionString M m p pre)
    (hM : IsSafe M) (hm : IsSafe m) (hp : IsSafe p) (hs : IsSafePre pre) :
    (pre ≠ none → ∀ w, bumpPre localVer type version = Except.ok w →
      (parseVersion localVer version).lt w = true)
    ∧ (pre = none → localVer = versionString M m p none →
      (type = Directive.bare ∨ type.isAlpha = true) →
      ∃ w, bumpPre localVer type version = Except.ok w
        ∧ (parseVersion localVer version).lt w = true
        ∧ generateVersion w = versionString M m (p + 1) (some (PreName.alpha, 0)))
    ∧ (pre = none → type.isBeta = true →
      ∃ w, bumpPre localVer type version = Except.ok w
        ∧ w.lt (parseVersion localVer version) = true
        ∧ generateVersion w = versionString M m p (some (PreName.beta, 0)))
    ∧ (pre = none → type.isRc = true →
      ∃ w, bumpPre localVer type version = Except.ok w
        ∧ w.lt (parseVersion localVer version) = true
        ∧ generateVersion w = versionString M m p (some (PreName.rc, 0))) := by
  have eM := roundToDouble_nat M (Nat.le_of_lt hM)
  have em := roundToDouble_nat m (Nat.le_of_lt hm)
  have ep := roundToDouble_nat p (Nat.le_of_lt hp)
  refine ⟨?_, ?_, ?_, ?_⟩
  · intro hpre w hw
    match pre, hpre, hv, hs with
    | some (t, n), _, hv, hs =>
      exact bumpPre_some_lt localVer version type M m p t n hv hM hm hp (hs t n rfl) w hw
  · intro hpre hloc ht
    subst hpre
    have hv2 : versionOrLocal none localVer = versionString M m p none := hloc
    have hpv := parseVersion_safe localVer version M m p none hv hM hm hp
    rw [bumpPre_delegates localVer version type M m p hv ht]
    have h := (bump_alpha_general localVer none (Directive.str "alpha".toList) M m p none hv2
      hM hm hp (by decide)).2.2
    refine ⟨_, h, ?_, ?_⟩
    · rw [hpv]
      simp [Version.lt, Version.ltCore, JSNum.lt]
    · have e1 : JSNum.int ((p : Int) + 1) = JSNum.int ((p + 1 : Nat) : Int) := by
        simp
      exact generateVersion_exact _ M m (p + 1) (some (PreName.alpha, 0)) rfl rfl e1
        (Nat.le_of_lt hM) (Nat.le_of_lt hm) hp ⟨rfl, rfl, by decide⟩
  · intro hpre hb
    subst hpre
    have hpv := parseVersion_safe localVer version M m p none hv hM hm hp
    have hbare : type ≠ Directive.bare := by
      intro e; subst e; revert hb; decide
    have ha : type.isAlpha = false := by
      rcases (isBeta_iff type).1 hb with e | e <;> rw [e] <;> decide
    have hres : bumpPre localVer type version = Except.ok
        { major := JSNum.int M, minor := JSNum.int m, patch := JSNum.int p,
          pre := { type := some "beta".toList, value := some (JSNum.int 0), patch := false },
          raw := versionString M m p none } := by
      simp [bumpPre, hpv, preOf, textPre, ha, hb, hbare, preValueAddOne, addOne_neg_one]
    refine ⟨_, hres, ?_, ?_⟩
    · rw [hpv]
      simp [Version.lt, Version.ltCore, rankLt, preRank, JSNum.lt, preOf, textPre]
    · exact generateVersion_exact _ M m p (some (PreName.beta, 0)) rfl rfl rfl
        (Nat.le_of_lt hM) (Nat.le_of_lt hm) (Nat.le_of_lt hp) ⟨rfl, rfl, by decide⟩
  · intro hpre hr
    subst hpre
    have hpv := parseVersion_safe localVer version M m p none hv hM hm hp
    have hbare : type ≠ Directive.bare := by
      intro e; subst e; revert hr; decide
    have ha : type.isAlpha = false := by
      rcases (isRc_iff type).1 hr with e | e | e <;> rw [e] <;> decide
    have hb : type.isBeta = false := by
      rcases (isRc_iff type).1 hr with e | e | e <;> rw [e] <;> decide
    have hres : bumpPre localVer type version = Except.ok
        { major := JSNum.int M, minor := JSNum.int m, patch := JSNum.int p,
          pre := { type := some "rc".toList, value := some (JSNum.int 0), patch := false },
          raw := versionString M m p none } := by
      simp [bumpPre, hpv, preOf, textPre, ha, hb, hr, hbare, preValueAddOne, addOne_neg_one]
    refine ⟨_, hres, ?_, ?_⟩
    · rw [hpv]
      simp [Version.lt, Version.ltCore, rankLt, preRank, JSNum.lt, preOf, textPre]
    · exact generateVersion_exact _ M m p (some (PreName.rc, 0)) rfl rfl rfl
        (Nat.le_of_lt hM) (Nat.le_of_lt hm) (Nat.le_of_lt hp) ⟨rfl, rfl, by decide⟩

/-- Witness of C12: `1.2.4-alpha.0` with `beta` gives a greater version, `1.2.3` from
`package.json` with `true` gives a greater version, `1.2.3` with `beta` and with `rc` gives
a lower one. -/
theorem bumpPre_order_witness :
    (∀ w, bumpPre [] (Directive.str "beta".toList) (some "1.2.4-alpha.0".toList) = Except.ok w →
      (parseVersion [] (some "1.2.4-alpha.0".toList)).lt w = true)
    ∧ (∃ w, bumpPre "1.2.3".toList Directive.bare (some "1.2.3".toList) = Except.ok w
        ∧ (parseVersion "1.2.3".toList (some "1.2.3".toList)).lt w = true
        ∧ generateVersion w = versionString 1 2 (3 + 1) (some (PreName.alpha, 0)))
    ∧ (∃ w, bumpPre [] (Directive.str "beta".toList) (some "1.2.3".toList) = Except.ok w
        ∧ w.lt (parseVersion [] (some "1.2.3".toList)) = true
        ∧ generateVersion w = versionString 1 2 3 (some (PreName.beta, 0)))
    ∧ (∃ w, bumpPre [] (Directive.str "rc".toList) (some "1.2.3".toList) = Except.ok w
        ∧ w.lt (parseVersion [] (some "1.2.3".toList)) = true
        ∧ generateVersion w = versionString 1 2 3 (some (PreName.rc, 0))) :=
  ⟨(bumpPre_order [] (some "1.2.4-alpha.0".toList) (Directive.str "beta".toList) 1 2 4
      (some (PreName.alpha, 0)) (by decide) (by decide) (by decide) (by decide)
      (fun t n h => by cases h; decide)).1 (by decide),
   (bumpPre_order "1.2.3".toList (some "1.2.3".toList) Directive.bare 1 2 3 none (by decide)
      (by decide) (by decide) (by decide) (fun t n h => by cases h)).2.1 rfl (by decide)
      (Or.inl rfl),
   (bumpPre_order [] (some "1.2.3".toList) (Directive.str "beta".toList) 1 2 3 none
      (by decide) (by decide) (by decide) (by decide) (fun t n h => by cases h)).2.2.1 rfl
      (by decide),
   (bumpPre_order [] (some "1.2.3".toList) (Directive.str "rc".toList) 1 2 3 none
      (by decide) (by decide) (by decide) (by decide) (fun t n h => by cases h)).2.2.2 rfl
      (by decide)⟩

/-! ## The data-model invariant on `pre` -/

/-- C13 (evaluation of the code where the claim fails): `bumpMajor` with `alpha` on `1.2.3`
returns `pre.type` `alpha` with `pre.value` `null`, and `bumpMajor` with `true` on
`1.2.3-alpha.4` returns `pre.type` `null` with `pre.value` `4`; `bumpPre` with `true` on
`1.2.3` from `package.json` returns `pre.type` `alpha` with `pre.value` `null`. In each the
invariant between `pre.type` and `pre.value` is broken. -/
theorem bump_breaks_pre_invariant :
    (∃ w, bumpMajor "1.2.3".toList (Directive.str "alpha".toList) none = Except.ok w
      ∧ w.pre.type = some "alpha".toList ∧ w.pre.value = none ∧ w.PreInvariant = false)
    ∧ (∃ w, bumpMajor "1.2.3-alpha.4".toList Directive.bare none = Except.ok w
      ∧ w.pre.type = none ∧ w.pre.value = some (JSNum.int 4) ∧ w.PreInvariant = false)
    ∧ (∃ w, bumpPre "1.2.3".toList Directive.bare none = Except.ok w
      ∧ w.pre.type = some "alpha".toList ∧ w.pre.value = none ∧ w.PreInvariant = false) :=
  ⟨⟨_, rfl, rfl, rfl, rfl⟩, ⟨_, rfl, rfl, rfl, rfl⟩, ⟨_, rfl, rfl, rfl, rfl⟩⟩

/-- On a well-formed version string `parseVersion` does return a version that satisfies
the invariant. -/
theorem parseVersion_preInvariant (localVer : JSString) (version : Option JSString)
    (M m p : Nat) (pre : Option (PreName × Nat))
    (hv : versionOrLocal version localVer = versionString M m p pre) :
    (parseVersion localVer version).PreInvariant = true := by
  rw [parseVersion_versionString localVer version M m p pre hv]
  match pre with
  | none => rfl
  | some (t, n) => rfl

/-! ## `runCmd` -/

theorem runCmd_out_of_range {σ ε : Type} (execSync : σ → JSString → σ × Option ε)
    (arr : List JSString) (line : Nat) (opts : RunOptions) (w : σ) (h : arr.length ≤ line) :
    runCmd execSync arr line opts w = (w, none) := by
  rw [runCmd]
  simp [Nat.not_lt.mpr h]

theorem runCmd_empty {σ ε : Type} (execSync : σ → JSString → σ × Option ε)
    (arr : List JSString) (line : Nat) (opts : RunOptions) (w : σ) (h : line < arr.length)
    (he : arr[line] = []) : runCmd execSync arr line opts w = (w, none) := by
  rw [runCmd]
  simp [h, he]

/-- The guard `if (arr[line + 1])` before the recursive call changes nothing: the call
would return at once on an absent or empty command. -/
theorem runCmd_next {σ ε : Type} (execSync : σ → JSString → σ × Option ε)
    (arr : List JSString) (line : Nat) (opts : RunOptions) (w : σ) :
    (match arr[line + 1]? with
      | some (_ :: _) => runCmd execSync arr (line + 1) opts w
      | _ => (w, none)) = runCmd execSync arr (line + 1) opts w := by
  by_cases h : line + 1 < arr.length
  · rw [List.getElem?_eq_getElem h]
    cases he : arr[line + 1] with
    | nil => simp [runCmd_empty execSync arr (line + 1) opts w h he]
    | cons c cs => rfl
  · rw [List.getElem?_eq_none (Nat.le_of_not_lt h),
      runCmd_out_of_range execSync arr (line + 1) opts w (Nat.le_of_not_lt h)]

theorem not_skipped_eq (opts : RunOptions) (cmd : JSString) :
    (!(opts.nopush && startsWith cmd "git push".toList)
      && !(opts.nopublish && startsWith cmd "npm publish".toList)) = !(skipped opts cmd) := by
  rw [skipped, Bool.not_or]

/-- One step of `runCmd` on a command that is not empty. -/
theorem runCmd_step {σ ε : Type} (execSync : σ → JSString → σ × Option ε)
    (arr : List JSString) (line : Nat) (opts : RunOptions) (w : σ) (h : line < arr.length)
    (he : arr[line] ≠ []) :
    runCmd execSync arr line opts w =
      if skipped opts arr[line] = false ∧ opts.dry = false then
        match execSync w arr[line] with
        | (w1, some err) => (w1, some err)
        | (w1, none) => runCmd execSync arr (line + 1) opts w1
      else runCmd execSync arr (line + 1) opts w := by
  rw [runCmd]
  have hne : arr[line].isEmpty = false := by
    cases hc : arr[line] with
    | nil => exact absurd hc he
    | cons c cs => rfl
  simp only [h, dite_true, hne]
  by_cases hs : skipped opts arr[line] = false
  · have hs2 : (!(opts.nopush && startsWith arr[line] "git push".toList)
        && !(opts.nopublish && startsWith arr[line] "npm publish".toList)) = true := by
      rw [not_skipped_eq, hs]; rfl
    cases hd : opts.dry
    · simp only [hs2, hs, hd, if_true, and_self, Bool.not_false]
      cases hx : execSync w arr[line] with
      | mk w1 r =>
        cases r with
        | none => simp only []; exact runCmd_next execSync arr line opts w1
        | some err => rfl
    · simp only [hs2, hs, if_true, Bool.not_true]
      simp only [Bool.false_eq_true, if_false, and_false]
      exact runCmd_next execSync arr line opts w
  · have hs2 : (!(opts.nopush && startsWith arr[line] "git push".toList)
        && !(opts.nopublish && startsWith arr[line] "npm publish".toList)) = false := by
      have : skipped opts arr[line] = true := by simpa using hs
      rw [not_skipped_eq, this]; rfl
    simp only [hs2, hs]
    simp only [Bool.false_eq_true, if_false, false_and]
    exact runCmd_next execSync arr line opts w

theorem beforeEmpty_cons_nil (rest : List JSString) : beforeEmpty ([] :: rest) = [] := by
  simp [beforeEmpty]

theorem beforeEmpty_cons (cmd : JSString) (rest : List JSString) (h : cmd ≠ []) :
    beforeEmpty (cmd :: rest) = cmd :: beforeEmpty rest := by
  cases cmd with
  | nil => exact absurd rfl h
  | cons c cs => simp [beforeEmpty, List.takeWhile]

theorem beforeEmpty_of_ne (arr : List JSString) (h : ∀ cmd ∈ arr, cmd ≠ []) :
    beforeEmpty arr = arr := by
  induction arr with
  | nil => rfl
  | cons cmd rest ih =>
    rw [beforeEmpty_cons cmd rest (h cmd (List.mem_cons_self _ _)),
      ih (fun c hc => h c (List.mem_cons_of_mem _ hc))]

/-- With `dry` off, `runCmd` from position `line` has the effect of executing, one after
the other and until one fails, the commands that are not skipped among those from `line`
up to the first empty string. -/
theorem runCmd_eq_execAll {σ ε : Type} (execSync : σ → JSString → σ × Option ε)
    (arr : List JSString) (opts : RunOptions) (hdry : opts.dry = false) :
    ∀ (k line : Nat) (w : σ), arr.length - line = k →
      runCmd execSync arr line opts w
        = execAll execSync (notSkipped opts (beforeEmpty (arr.drop line))) w := by
  intro k
  induction k with
  | zero =>
    intro line w hk
    have h : arr.length ≤ line := by omega
    rw [runCmd_out_of_range execSync arr line opts w h, List.drop_of_length_le h]
    rfl
  | succ k ih =>
    intro line w hk
    have h : line < arr.length := by omega
    rw [List.drop_eq_getElem_cons h]
    by_cases he : arr[line] = []
    · rw [runCmd_empty execSync arr line opts w h he, he, beforeEmpty_cons_nil]
      rfl
    · rw [runCmd_step execSync arr line opts w h he, beforeEmpty_cons _ _ he]
      cases hs : skipped opts arr[line] with
      | false =>
        simp only [hdry, and_self, if_true, notSkipped, List.filter, hs, Bool.not_false, execAll]
        cases hx : execSync w arr[line] with
        | mk w1 r =>
          cases r with
          | none => exact ih (line + 1) w1 (by omega)
          | some err => rfl
      | true =>
        simp only [notSkipped, List.filter, hs, Bool.not_true]
        simp only [Bool.true_eq_false, false_and, if_false]
        exact ih (line + 1) w (by omega)

/-- With `dry` set, `runCmd` leaves the world as it is and throws nothing. -/
theorem runCmd_dry {σ ε : Type} (execSync : σ → JSString → σ × Option ε)
    (arr : List JSString) (opts : RunOptions) (hdry : opts.dry = true) :
    ∀ (k line : Nat) (w : σ), arr.length - line = k →
      runCmd execSync arr line opts w = (w, none) := by
  intro k
  induction k with
  | zero =>
    intro line w hk
    exact runCmd_out_of_range execSync arr line opts w (by omega)
  | succ k ih =>
    intro line w hk
    have h : line < arr.length := by omega
    by_cases he : arr[line] = []
    · exact runCmd_empty execSync arr line opts w h he
    · rw [runCmd_step execSync arr line opts w h he]
      simp only [hdry, Bool.true_eq_false, and_false, if_false]
      exact ih (line + 1) w (by omega)

theorem execAll_append {σ ε : Type} (execSync : σ → JSString → σ × Option ε)
    (xs ys : List JSString) : ∀ (w : σ),
    execAll execSync (xs ++ ys) w =
      match execAll execSync xs w with
      | (w1, some err) => (w1, some err)
      | (w1, none) => execAll execSync ys w1 := by
  induction xs with
  | nil => intro w; rfl
  | cons x rest ih =>
    intro w
    simp only [List.cons_append, execAll]
    cases hx : execSync w x with
    | mk w1 r =>
      cases r with
      | none => exact ih w1
      | some err => rfl

theorem execAll_recordExec (xs : List JSString) : ∀ (w : List JSString),
    execAll recordExec xs w = (w ++ xs, none) := by
  induction xs with
  | nil => intro w; simp [execAll]
  | cons x rest ih => intro w; simp [execAll, recordExec, ih]

theorem execAll_ok {σ ε : Type} (execSync : σ → JSString → σ × Option ε)
    (xs : List JSString) (hok : ∀ w, ∀ cmd ∈ xs, (execSync w cmd).2 = none) :
    ∀ (w : σ), (execAll execSync xs w).2 = none := by
  induction xs with
  | nil => intro w; rfl
  | cons x rest ih =>
    intro w
    simp only [execAll]
    have hx := hok w x (List.mem_cons_self _ _)
    cases hr : execSync w x with
    | mk w1 r =>
      rw [hr] at hx
      simp only at hx
      subst hx
      exact ih (fun w c hc => hok w c (List.mem_cons_of_mem _ hc)) w1

theorem mem_of_mem_notSkipped_beforeEmpty (opts : RunOptions) (arr : List JSString)
    (cmd : JSString) (h : cmd ∈ notSkipped opts (beforeEmpty arr)) : cmd ∈ arr :=
  (List.takeWhile_sublist _).subset (List.mem_of_mem_filter h)

theorem beforeEmpty_append (xs ys : List JSString) (h : ∀ cmd ∈ xs, cmd ≠ []) :
    beforeEmpty (xs ++ ys) = xs ++ beforeEmpty ys := by
  induction xs with
  | nil => rfl
  | cons x rest ih =>
    rw [List.cons_append, beforeEmpty_cons x _ (h x (List.mem_cons_self _ _)),
      ih (fun c hc => h c (List.mem_cons_of_mem _ hc)), List.cons_append]

theorem take_succ_getElem (arr : List JSString) (i : Nat) (hi : i < arr.length) :
    arr.take (i + 1) = arr.take i ++ [arr[i]] := by
  rw [List.take_succ, List.getElem?_eq_getElem hi]
  rfl

/-- C14 (counterexample): with `dry` off and an executor that never fails, `runCmd` on the
list `git add .`, the empty string, `git push` executes `git add .` only, although none of
the three commands is skipped: the empty string ends the run. -/
theorem runCmd_stops_at_empty_command :
    runCmd recordExec ["git add .".toList, [], "git push".toList] 0
        { dry := false, nopush := false, nopublish := false } []
      = (["git add .".toList], none)
    ∧ notSkipped { dry := false, nopush := false, nopublish := false }
        ["git add .".toList, [], "git push".toList]
      = ["git add .".toList, [], "git push".toList] := by
  constructor
  · rw [runCmd_eq_execAll recordExec ["git add .".toList, [], "git push".toList]
      { dry := false, nopush := false, nopublish := false } rfl 3 0 [] rfl,
      execAll_recordExec]
    decide
  · decide

/-- C14 (amended): with `dry` off and no command of the list failing, `runCmd` started at
position `0` has exactly the effect of executing, each once and in list order, the commands
that are not skipped among those before the first empty string of the list, and it throws
nothing; with a recording executor the commands executed are exactly those; and when the
list holds no empty string, they are the commands of the whole list that are not
skipped. -/
theorem runCmd_executes_not_skipped {σ ε : Type} (execSync : σ → JSString → σ × Option ε)
    (arr : List JSString) (opts : RunOptions) (w : σ) (hdry : opts.dry = false)
    (hok : ∀ w, ∀ cmd ∈ arr, (execSync w cmd).2 = none) :
    runCmd execSync arr 0 opts w = execAll execSync (notSkipped opts (beforeEmpty arr)) w
    ∧ (runCmd execSync arr 0 opts w).2 = none
    ∧ runCmd recordExec arr 0 opts [] = (notSkipped opts (beforeEmpty arr), none)
    ∧ ((∀ cmd ∈ arr, cmd ≠ []) →
        runCmd recordExec arr 0 opts [] = (notSkipped opts arr, none)) := by
  have h1 := runCmd_eq_execAll execSync arr opts hdry arr.length 0 w rfl
  have h2 := runCmd_eq_execAll recordExec arr opts hdry arr.length 0 [] rfl
  rw [List.drop_zero] at h1 h2
  rw [execAll_recordExec, List.nil_append] at h2
  refine ⟨h1, ?_, h2, ?_⟩
  · rw [h1]
    exact execAll_ok execSync _
      (fun w c hc => hok w c (mem_of_mem_notSkipped_beforeEmpty opts arr c hc)) w
  · intro hne
    rw [h2, beforeEmpty_of_ne arr hne]

/-- Witness of C14: the list `git push`, `npm publish --tag x` with `nopush` set: only the
publish command is executed. -/
theorem runCmd_executes_not_skipped_witness :
    runCmd recordExec ["git push".toList, "npm publish --tag x".toList] 0
        { dry := false, nopush := true, nopublish := false } []
      = (["npm publish --tag x".toList], none) :=
  (runCmd_executes_not_skipped recordExec ["git push".toList, "npm publish --tag x".toList]
    { dry := false, nopush := true, nopublish := false } [] rfl
    (fun _ _ _ => rfl)).2.2.2 (by decide)

/-- C15: for every command list and every setting of `nopush` and `nopublish`, `runCmd`
with `dry` set never calls the executor: whatever the executor, the world is left as it
was and nothing is thrown; a recording executor records no command. -/
theorem runCmd_dry_run {σ ε : Type} (execSync : σ → JSString → σ × Option ε)
    (arr : List JSString) (nopush nopublish : Bool) (w : σ) :
    runCmd execSync arr 0 { dry := true, nopush := nopush, nopublish := nopublish } w
      = (w, none)
    ∧ runCmd recordExecFalse arr 0 { dry := true, nopush := nopush, nopublish := nopublish } []
      = ([], none) :=
  ⟨runCmd_dry execSync arr _ rfl arr.length 0 w rfl,
   runCmd_dry recordExecFalse arr _ rfl arr.length 0 [] rfl⟩

/-- C16 (counterexample): on the list made of the empty string and `false`, with `dry` off
and nothing skipped, the first command whose execution fails is `false` at position `1`
(the executor succeeds on the empty string), and `runCmd` returns without executing
anything and without throwing. -/
theorem runCmd_misses_failure_after_empty :
    skipped { dry := false, nopush := false, nopublish := false } [] = false
    ∧ (recordExecFalse [] []).2 = none
    ∧ skipped { dry := false, nopush := false, nopublish := false } "false".toList = false
    ∧ (recordExecFalse [[]] "false".toList).2 = some ()
    ∧ runCmd recordExecFalse [[], "false".toList] 0
        { dry := false, nopush := false, nopublish := false } [] = ([], none) := by
  refine ⟨by decide, rfl, by decide, rfl, ?_⟩
  exact runCmd_empty recordExecFalse _ 0 _ [] (by decide) rfl

/-- C16 (amended): with `dry` off, let position `i` hold a command that is not skipped, let
no command up to position `i` be the empty string, let the commands before `i` that are not
skipped all succeed when executed in order, and let the command at `i` then fail with
`err`. Then `runCmd` throws `err`, and the world it leaves is the one after executing,
each once and in order, the commands before `i` that are not skipped and then the command
at `i`: nothing after position `i` is executed. -/
theorem runCmd_fail_fast {σ ε : Type} (execSync : σ → JSString → σ × Option ε)
    (arr : List JSString) (opts : RunOptions) (w w1 w2 : σ) (err : ε) (i : Nat)
    (hi : i < arr.length) (hdry : opts.dry = false)
    (hne : ∀ cmd ∈ arr.take (i + 1), cmd ≠ [])
    (hs : skipped opts arr[i] = false)
    (hbefore : execAll execSync (notSkipped opts (arr.take i)) w = (w1, none))
    (hfail : execSync w1 arr[i] = (w2, some err)) :
    runCmd execSync arr 0 opts w = (w2, some err) := by
  have h1 := runCmd_eq_execAll execSync arr opts hdry arr.length 0 w rfl
  rw [List.drop_zero] at h1
  have hsplit : arr = arr.take i ++ [arr[i]] ++ arr.drop (i + 1) := by
    rw [← take_succ_getElem arr i hi, List.take_append_drop]
  have hb : beforeEmpty arr = arr.take i ++ [arr[i]] ++ beforeEmpty (arr.drop (i + 1)) := by
    conv => lhs; rw [hsplit]
    rw [beforeEmpty_append _ _ (by rw [← take_succ_getElem arr i hi]; exact hne)]
  rw [h1, hb]
  simp only [notSkipped, List.filter_append, List.filter, hs, Bool.not_false,
    List.append_assoc]
  rw [execAll_append]
  have hbefore2 : execAll execSync (List.filter (fun cmd => !skipped opts cmd) (arr.take i)) w
      = (w1, none) := hbefore
  rw [hbefore2]
  simp only [List.singleton_append, List.cons_append, List.nil_append, execAll, hfail]

/-- Witness of C16: on the list `git add .`, `false`, `git push` the run stops at
`false`. -/
theorem runCmd_fail_fast_witness :
    runCmd recordExecFalse ["git add .".toList, "false".toList, "git push".toList] 0
        { dry := false, nopush := false, nopublish := false } []
      = (["git add .".toList, "false".toList], some ()) :=
  runCmd_fail_fast recordExecFalse ["git add .".toList, "false".toList, "git push".toList]
    { dry := false, nopush := false, nopublish := false } [] ["git add .".toList]
    ["git add .".toList, "false".toList] () 1 (by decide) rfl (by decide) (by decide)
    (by decide) (by decide)


/-! ## The publish tag -/

theorem isDec_of_mem_significant (y : Nat) (c : Char)
    (h : c ∈ ((Nat.toDigits 10 y).reverse.dropWhile (fun c => c = '0')).reverse) : IsDec c :=
  toDigits_isDec y c
    (List.mem_reverse.1 ((List.dropWhile_sublist _).subset (List.mem_reverse.1 h)))

theorem dash_not_mem_formatDecimal (y : Nat) : '-' ∉ formatDecimal y := by
  have hd := not_mem_toDigits '-' (by decide)
  unfold formatDecimal
  split
  · exact hd y
  · split
    · simp
    · rename_i d hs
      have hdd : IsDec d := isDec_of_mem_significant y d (by rw [hs]; simp)
      have h1 : d ≠ '-' := ne_of_isDec d '-' hdd (by decide)
      intro hmem
      simp only [List.mem_cons] at hmem
      rcases hmem with h | h | h | h
      · exact h1 h.symm
      · revert h; decide
      · revert h; decide
      · exact hd _ h
    · rename_i d rest _ hs
      have hall : ∀ c ∈ d :: rest, IsDec c := by
        intro c hc
        exact isDec_of_mem_significant y c (by rw [hs]; exact hc)
      intro hmem
      simp only [List.mem_cons, List.mem_append] at hmem
      rcases hmem with (h | h | h) | (h | h | h)
      · exact ne_of_isDec d '-' (hall d (by simp)) (by decide) h.symm
      · revert h; decide
      · exact absurd (hall '-' (List.mem_cons_of_mem _ h)) (by decide)
      · revert h; decide
      · revert h; decide
      · exact hd _ h

theorem dash_not_mem_natToJSString (a : Nat) : '-' ∉ natToJSString a := by
  unfold natToJSString
  split
  · exact not_mem_toDigits '-' (by decide) a
  · exact dash_not_mem_formatDecimal _

theorem dash_not_mem_orZero (x : JSNum) (h : x.IsNatOrNaN) : '-' ∉ x.orZero.toJSString := by
  cases x with
  | nan => decide
  | int n =>
    have h0 : 0 ≤ n := h
    have h1 : ¬ n < 0 := by omega
    simp only [JSNum.orZero, JSNum.toJSString, h1, if_false]
    exact dash_not_mem_natToJSString _
  | inf b =>
    have hb : b = false := h
    subst hb
    decide

/-- C17: when the option `--tag` is a string, the tag is that string; when it is not
(`undefined` or `true`), for every version whose major, minor and patch are not negative
the tag computed from `generateVersion` is `next` if `pre.type` is set and `latest` if
`pre.type` is `null`. -/
theorem publishTag_resolution (tag : Directive) (v : Version) (newVer : JSString)
    (hM : v.major.IsNatOrNaN) (hm : v.minor.IsNatOrNaN) (hp : v.patch.IsNatOrNaN) :
    (∀ s, tag = Directive.str s → publishTag tag newVer = s)
    ∧ ((tag = Directive.undefined ∨ tag = Directive.bare) →
        (v.pre.type = none → publishTag tag (generateVersion v) = "latest".toList)
        ∧ (v.pre.type ≠ none → publishTag tag (generateVersion v) = "next".toList)) := by
  constructor
  · intro s hs
    subst hs
    rfl
  · intro ht
    have h1 := dash_not_mem_orZero _ hM
    have h2 := dash_not_mem_orZero _ hm
    have h3 := dash_not_mem_orZero _ hp
    constructor
    · intro hnone
      rcases ht with e | e <;> subst e <;>
        simp [publishTag, generateVersion, hnone, h1, h2, h3]
    · intro hsome
      cases hty : v.pre.type with
      | none => exact absurd hty hsome
      | some t =>
        rcases ht with e | e <;> subst e <;>
          simp [publishTag, generateVersion, hty]

/-- Witness of C17: `1.2.4` resolves to `latest`, `1.2.4-alpha.0` to `next`, and `--tag
beta` to `beta`. -/
theorem publishTag_resolution_witness :
    publishTag (Directive.str "beta".toList) "1.2.4".toList = "beta".toList
    ∧ publishTag Directive.undefined (generateVersion
        { major := JSNum.int 1, minor := JSNum.int 2, patch := JSNum.int 4,
          pre := { type := none, value := none, patch := false }, raw := [] })
        = "latest".toList
    ∧ publishTag Directive.undefined (generateVersion
        { major := JSNum.int 1, minor := JSNum.int 2, patch := JSNum.int 4,
          pre := { type := some "alpha".toList, value := some (JSNum.int 0), patch := false },
          raw := [] })
        = "next".toList :=
  ⟨(publishTag_resolution (Directive.str "beta".toList)
      { major := JSNum.int 1, minor := JSNum.int 2, patch := JSNum.int 4,
        pre := { type := none, value := none, patch := false }, raw := [] } "1.2.4".toList
      (by simp [JSNum.IsNatOrNaN]) (by simp [JSNum.IsNatOrNaN])
      (by simp [JSNum.IsNatOrNaN])).1 _ rfl,
   ((publishTag_resolution Directive.undefined
      { major := JSNum.int 1, minor := JSNum.int 2, patch := JSNum.int 4,
        pre := { type := none, value := none, patch := false }, raw := [] } []
      (by simp [JSNum.IsNatOrNaN]) (by simp [JSNum.IsNatOrNaN])
      (by simp [JSNum.IsNatOrNaN])).2 (Or.inl rfl)).1 rfl,
   ((publishTag_resolution Directive.undefined
      { major := JSNum.int 1, minor := JSNum.int 2, patch := JSNum.int 4,
        pre := { type := some "alpha".toList, value := some (JSNum.int 0), patch := false },
        raw := [] } []
      (by simp [JSNum.IsNatOrNaN]) (by simp [JSNum.IsNatOrNaN])
      (by simp [JSNum.IsNatOrNaN])).2 (Or.inl rfl)).2 (by simp)⟩


/-! ## Malformed versions -/

/-- C18 (counterexample): on the current version `x.2.3`, whose major is not a number,
`bumpMajor` with `true` followed by `generateVersion` returns the version string `0.0.0`,
not an error; likewise `bumpPatch` on `1.2.x` returns `1.2.0`. -/
theorem bump_malformed_returns_string :
    (bumpMajor [] Directive.bare (some "x.2.3".toList)).map generateVersion
      = Except.ok "0.0.0".toList
    ∧ (bumpPatch [] Directive.bare (some "1.2.x".toList)).map generateVersion
      = Except.ok "1.2.0".toList := by
  constructor <;> rfl

theorem clearPre_fields (v : Version) :
    (clearPre v).major = v.major ∧ (clearPre v).minor = v.minor
      ∧ (clearPre v).patch = v.patch ∧ (clearPre v).pre.type = v.pre.type := by
  unfold clearPre
  cases h : v.pre.type <;> simp [h]

theorem setAlpha_fields (type : Directive) (v : Version) :
    (setAlpha type v).major = v.major ∧ (setAlpha type v).minor = v.minor
      ∧ (setAlpha type v).patch = v.patch := by
  unfold setAlpha
  cases type.isAlpha <;> simp

theorem generateVersion_zero_release (v : Version) (h1 : v.major = JSNum.nan)
    (h2 : v.minor = JSNum.int 0) (h3 : v.patch = JSNum.int 0) (h4 : v.pre.type = none) :
    generateVersion v = "0.0.0".toList := by
  unfold generateVersion
  rw [h1, h2, h3, h4]
  simp only []
  decide

theorem generateVersion_zero_alpha (v : Version) (h1 : v.major = JSNum.nan)
    (h2 : v.minor = JSNum.int 0) (h3 : v.patch = JSNum.int 0)
    (h4 : v.pre.type = some "alpha".toList) (h5 : v.pre.value = none) :
    generateVersion v = "0.0.0-alpha.0".toList := by
  unfold generateVersion
  rw [h1, h2, h3, h4, h5]
  simp only []
  decide

/-- C18 (amended): a malformed version raises no error. For every current version string
and every directive, `bumpMajor` returns a version when the directive is not an integer or
the current major is `NaN`, `bumpMinor` when the directive is not an integer or the
current minor is `NaN`, and `bumpPatch` always. With a directive that is not an integer a
`NaN` target component stays `NaN` in the returned version, and for `bumpMajor` the version
returned is printed `0.0.0`, or `0.0.0-alpha.0` with `alpha` or `a`. For every version,
`generateVersion` prints a `NaN` major, minor or patch as it prints `0`. -/
theorem bump_malformed_no_error (localVer : JSString) (version : Option JSString)
    (type : Directive) :
    ((parseInt type.toJSString = JSNum.nan ∨ (parseVersion localVer version).major = JSNum.nan) →
      ∃ w, bumpMajor localVer type version = Except.ok w
        ∧ (parseInt type.toJSString = JSNum.nan →
            (parseVersion localVer version).major = JSNum.nan →
            w.major = JSNum.nan
            ∧ (generateVersion w = "0.0.0".toList
              ∨ generateVersion w = "0.0.0-alpha.0".toList)))
    ∧ ((parseInt type.toJSString = JSNum.nan ∨ (parseVersion localVer version).minor = JSNum.nan) →
      ∃ w, bumpMinor localVer type version = Except.ok w
        ∧ (parseInt type.toJSString = JSNum.nan →
            (parseVersion localVer version).minor = JSNum.nan → w.minor = JSNum.nan))
    ∧ (∃ w, bumpPatch localVer type version = Except.ok w
        ∧ (parseInt type.toJSString = JSNum.nan →
            (parseVersion localVer version).patch = JSNum.nan → w.patch = JSNum.nan))
    ∧ (∀ v : Version,
        (v.major = JSNum.nan →
          generateVersion v = generateVersion { v with major := JSNum.int 0 })
        ∧ (v.minor = JSNum.nan →
          generateVersion v = generateVersion { v with minor := JSNum.int 0 })
        ∧ (v.patch = JSNum.nan →
          generateVersion v = generateVersion { v with patch := JSNum.int 0 })) := by
  refine ⟨?_, ?_, ?_, ?_⟩
  · intro h
    by_cases hn : parseInt type.toJSString = JSNum.nan
    · have hres : bumpMajor localVer type version = Except.ok (clearPre (setAlpha type
          { parseVersion localVer version with
            major := (parseVersion localVer version).major.addOne, minor := JSNum.int 0,
            patch := JSNum.int 0,
            pre := { (parseVersion localVer version).pre with type := none } })) := by
        simp [bumpMajor, hn, JSNum.isNaN]
      refine ⟨_, hres, ?_⟩
      intro _ hM
      have hmaj : (clearPre (setAlpha type
          { parseVersion localVer version with
            major := (parseVersion localVer version).major.addOne, minor := JSNum.int 0,
            patch := JSNum.int 0,
            pre := { (parseVersion localVer version).pre with type := none } })).major
          = JSNum.nan := by
        rw [(clearPre_fields _).1, (setAlpha_fields _ _).1]
        simp [hM, JSNum.addOne]
      refine ⟨hmaj, ?_⟩
      cases ha : type.isAlpha with
      | false =>
        left
        apply generateVersion_zero_release _ hmaj
        · rw [(clearPre_fields _).2.1, (setAlpha_fields _ _).2.1]
        · rw [(clearPre_fields _).2.2.1, (setAlpha_fields _ _).2.2]
        · rw [(clearPre_fields _).2.2.2]
          simp [setAlpha, ha]
      | true =>
        right
        apply generateVersion_zero_alpha _ hmaj
        · rw [(clearPre_fields _).2.1, (setAlpha_fields _ _).2.1]
        · rw [(clearPre_fields _).2.2.1, (setAlpha_fields _ _).2.2]
        · rw [(clearPre_fields _).2.2.2]
          simp [setAlpha, ha]
        · simp [clearPre, setAlpha, ha]
    · have hM : (parseVersion localVer version).major = JSNum.nan := by
        rcases h with h | h
        · exact absurd h hn
        · exact h
      have hnn : (parseInt type.toJSString).isNaN = false := by
        cases hx : parseInt type.toJSString with
        | nan => exact absurd hx hn
        | int k => rfl
        | inf b => rfl
      refine ⟨_, by simp [bumpMajor, hnn, hM, lt_nan]; rfl, ?_⟩
      intro h2
      exact absurd h2 hn
  · intro h
    by_cases hn : parseInt type.toJSString = JSNum.nan
    · have hres : bumpMinor localVer type version = Except.ok (clearPre (setAlpha type
          { parseVersion localVer version with
            minor := (parseVersion localVer version).minor.addOne, patch := JSNum.int 0,
            pre := { (parseVersion localVer version).pre with type := none } })) := by
        simp [bumpMinor, hn, JSNum.isNaN]
      refine ⟨_, hres, ?_⟩
      intro _ hM
      rw [(clearPre_fields _).2.1, (setAlpha_fields _ _).2.1]
      simp [hM, JSNum.addOne]
    · have hM : (parseVersion localVer version).minor = JSNum.nan := by
        rcases h with h | h
        · exact absurd h hn
        · exact h
      have hnn : (parseInt type.toJSString).isNaN = false := by
        cases hx : parseInt type.toJSString with
        | nan => exact absurd hx hn
        | int k => rfl
        | inf b => rfl
      refine ⟨_, by simp [bumpMinor, hnn, hM, lt_nan]; rfl, ?_⟩
      intro h2
      exact absurd h2 hn
  · by_cases hn : parseInt type.toJSString = JSNum.nan
    · have hres : bumpPatch localVer type version = Except.ok (clearPre (setAlpha type
          { parseVersion localVer version with
            patch := (parseVersion localVer version).patch.addOne,
            pre := { (parseVersion localVer version).pre with type := none } })) := by
        simp [bumpPatch, hn, JSNum.isNaN]
      refine ⟨_, hres, ?_⟩
      intro _ hM
      rw [(clearPre_fields _).2.2.1, (setAlpha_fields _ _).2.2]
      simp [hM, JSNum.addOne]
    · have hnn : (parseInt type.toJSString).isNaN = false := by
        cases hx : parseInt type.toJSString with
        | nan => exact absurd hx hn
        | int k => rfl
        | inf b => rfl
      refine ⟨_, by simp [bumpPatch, hnn, Version.path, lt_nan]; rfl, ?_⟩
      intro h2
      exact absurd h2 hn
  · intro v
    refine ⟨?_, ?_, ?_⟩
    · intro h
      simp [generateVersion, h, JSNum.orZero]
    · intro h
      simp [generateVersion, h, JSNum.orZero]
    · intro h
      simp [generateVersion, h, JSNum.orZero]

/-- Witness of C18: the current version `x.2.3` with `true`, and `1.x.3` with the explicit
target `7`. -/
theorem bump_malformed_no_error_witness :
    (∃ w, bumpMajor [] Directive.bare (some "x.2.3".toList) = Except.ok w
      ∧ w.major = JSNum.nan
      ∧ (generateVersion w = "0.0.0".toList ∨ generateVersion w = "0.0.0-alpha.0".toList))
    ∧ (∃ w, bumpMinor [] (Directive.str "7".toList) (some "1.x.3".toList) = Except.ok w) :=
  have h1 := (bump_malformed_no_error [] (some "x.2.3".toList) Directive.bare).1
    (Or.inl (by decide))
  have h2 := (bump_malformed_no_error [] (some "1.x.3".toList) (Directive.str "7".toList)).2.1
    (Or.inr (by decide))
  ⟨h1.elim (fun w hw =>
      have h3 := hw.2 (by decide) (by decide)
      ⟨w, hw.1, h3.1, h3.2⟩),
   h2.elim (fun w hw => ⟨w, hw.1⟩)⟩

/-! ## The bump operations and the version order -/

/-- C19 (counterexample): `bumpMajor` accepts the explicit target `1` on the current
version `1.2.3` and returns `1.0.0`, which is strictly lower than `1.2.3` in the version
order; and on `9007199254740992.2.3` the bare increment returns `9007199254740992.0.0`,
strictly lower too, because the major plus one is rounded back. -/
theorem bumpMajor_equal_target_moves_back :
    (∃ w, bumpMajor [] (Directive.str "1".toList) (some "1.2.3".toList) = Except.ok w
      ∧ generateVersion w = "1.0.0".toList
      ∧ (parseVersion [] (some "1.2.3".toList)).ltCore w = false
      ∧ w.ltCore (parseVersion [] (some "1.2.3".toList)) = true)
    ∧ (∃ w, bumpMajor [] Directive.bare (some "9007199254740992.2.3".toList) = Except.ok w
      ∧ generateVersion w = "9007199254740992.0.0".toList
      ∧ (parseVersion [] (some "9007199254740992.2.3".toList)).ltCore w = false
      ∧ w.ltCore (parseVersion [] (some "9007199254740992.2.3".toList)) = true) :=
  ⟨⟨_, rfl, by decide, by decide, by decide⟩, ⟨_, rfl, by decide, by decide, by decide⟩⟩

/-- C19 (amended): on a well-formed current version `M.m.p` whose major, minor and patch
are safe integers, with a directive that is not an integer (the bare increment, `alpha`,
`a`) or that `parseInt` reads as an integer strictly greater than the current value of the
target component, `bumpMajor`, `bumpMinor` and `bumpPatch` return a version strictly
greater than the current one in the version order. -/
theorem bump_order (localVer : JSString) (version : Option JSString)
    (type : Directive) (M m p : Nat) (pre : Option (PreName × Nat))
    (hv : versionOrLocal version localVer = versionString M m p pre)
    (hM : IsSafe M) (hm : IsSafe m) (hp : IsSafe p) :
    ((parseInt type.toJSString = JSNum.nan
        ∨ ∃ n : Int, parseInt type.toJSString = JSNum.int n ∧ (M : Int) < n) →
      ∃ w, bumpMajor localVer type version = Except.ok w
        ∧ (parseVersion localVer version).ltCore w = true)
    ∧ ((parseInt type.toJSString = JSNum.nan
        ∨ ∃ n : Int, parseInt type.toJSString = JSNum.int n ∧ (m : Int) < n) →
      ∃ w, bumpMinor localVer type version = Except.ok w
        ∧ (parseVersion localVer version).ltCore w = true)
    ∧ ((parseInt type.toJSString = JSNum.nan
        ∨ ∃ n : Int, parseInt type.toJSString = JSNum.int n ∧ (p : Int) < n) →
      ∃ w, bumpPatch localVer type version = Except.ok w
        ∧ (parseVersion localVer version).ltCore w = true) := by
  have hpv := parseVersion_safe localVer version M m p pre hv hM hm hp
  refine ⟨?_, ?_, ?_⟩
  · rintro (hn | ⟨n, hn, hlt⟩)
    · cases ha : type.isAlpha <;>
        simp [bumpMajor, hpv, hn, ha, setAlpha, clearPre, JSNum.isNaN, addOne_safe M hM,
          Version.ltCore, JSNum.lt]
    · have ha := isAlpha_of_parseInt type n hn
      have h2 : ¬ (n < (M : Int)) := by omega
      simp [bumpMajor, hpv, hn, ha, setAlpha, clearPre, JSNum.isNaN, JSNum.lt, h2, hlt,
        Version.ltCore]
  · rintro (hn | ⟨n, hn, hlt⟩)
    · cases ha : type.isAlpha <;>
        simp [bumpMinor, hpv, hn, ha, setAlpha, clearPre, JSNum.isNaN, addOne_safe m hm,
          Version.ltCore, JSNum.lt]
    · have ha := isAlpha_of_parseInt type n hn
      have h2 : ¬ (n < (m : Int)) := by omega
      simp [bumpMinor, hpv, hn, ha, setAlpha, clearPre, JSNum.isNaN, JSNum.lt, h2, hlt,
        Version.ltCore]
  · rintro (hn | ⟨n, hn, hlt⟩)
    · cases ha : type.isAlpha <;>
        simp [bumpPatch, hpv, hn, ha, setAlpha, clearPre, JSNum.isNaN, addOne_safe p hp,
          Version.ltCore, JSNum.lt]
    · have ha := isAlpha_of_parseInt type n hn
      simp [bumpPatch, hpv, hn, ha, setAlpha, clearPre, JSNum.isNaN, JSNum.lt, hlt,
        Version.ltCore, Version.path]

/-- Witness of C19: the current version `1.2.3-rc.1` with `true`, with `alpha` and with the
explicit target `5`. -/
theorem bump_order_witness :
    (∃ w, bumpMajor [] Directive.bare (some "1.2.3-rc.1".toList) = Except.ok w
      ∧ (parseVersion [] (some "1.2.3-rc.1".toList)).ltCore w = true)
    ∧ (∃ w, bumpMinor [] (Directive.str "alpha".toList) (some "1.2.3-rc.1".toList)
        = Except.ok w
      ∧ (parseVersion [] (some "1.2.3-rc.1".toList)).ltCore w = true)
    ∧ (∃ w, bumpPatch [] (Directive.str "5".toList) (some "1.2.3-rc.1".toList) = Except.ok w
      ∧ (parseVersion [] (some "1.2.3-rc.1".toList)).ltCore w = true) :=
  ⟨(bump_order [] (some "1.2.3-rc.1".toList) Directive.bare 1 2 3 (some (PreName.rc, 1))
      (by decide) (by decide) (by decide) (by decide)).1 (Or.inl (by decide)),
   (bump_order [] (some "1.2.3-rc.1".toList) (Directive.str "alpha".toList) 1 2 3
      (some (PreName.rc, 1)) (by decide) (by decide) (by decide) (by decide)).2.1
      (Or.inl (by decide)),
   (bump_order [] (some "1.2.3-rc.1".toList) (Directive.str "5".toList) 1 2 3
      (some (PreName.rc, 1)) (by decide) (by decide) (by decide) (by decide)).2.2
      (Or.inr ⟨5, by decide, by decide⟩)⟩

/-! ## The version `Main` computes when no bump is asked for -/

/-- C20 (counterexample): on the local version `1.2.3-alpha.4` the version `Main` computes
by itself is `1.2.3-alpha.5`, while `generateVersion(bumpPatch(true))` is `1.2.4`; and on
the release `9007199254740993.2.3` it is `9007199254740993.2.4`, the text of the major being
kept, while `generateVersion(bumpPatch(true))` is `9007199254740992.2.4`, the major being
read as a double and printed back. -/
theorem autoVersion_differs_on_prerelease :
    autoVersion "1.2.3-alpha.4".toList = some "1.2.3-alpha.5".toList
    ∧ (bumpPatch "1.2.3-alpha.4".toList Directive.bare none).map generateVersion
      = Except.ok "1.2.4".toList
    ∧ autoVersion "9007199254740993.2.3".toList = some "9007199254740993.2.4".toList
    ∧ (bumpPatch "9007199254740993.2.3".toList Directive.bare none).map generateVersion
      = Except.ok "9007199254740992.2.4".toList := by
  refine ⟨?_, ?_, ?_, ?_⟩
  · decide
  · rfl
  · decide
  · rfl

theorem split_dot_versionString_some (M m p : Nat) (t : PreName) (n : Nat) :
    split '.' (versionString M m p (some (t, n)))
      = [Nat.toDigits 10 M, Nat.toDigits 10 m, Nat.toDigits 10 p ++ '-' :: t.toJSString,
          Nat.toDigits 10 n] := by
  have h := not_mem_toDigits '.' (by decide)
  have h3 : '.' ∉ Nat.toDigits 10 p ++ '-' :: t.toJSString := by
    simp [h p, preName_no_dot t]
  show split '.' (coreString M m p ++ '-' :: (t.toJSString ++ '.' :: Nat.toDigits 10 n)) = _
  unfold coreString
  simp only [List.append_assoc, List.cons_append]
  rw [split_append _ _ _ (h M), split_append _ _ _ (h m)]
  have e : Nat.toDigits 10 p ++ '-' :: (t.toJSString ++ '.' :: Nat.toDigits 10 n)
      = (Nat.toDigits 10 p ++ '-' :: t.toJSString) ++ '.' :: Nat.toDigits 10 n := by
    simp
  rw [e, split_append _ _ _ h3, split_of_not_mem _ _ (h n)]

theorem addOne_toJSString (k : Nat) (hk : IsSafe k) :
    (JSNum.int k).addOne.toJSString = Nat.toDigits 10 (k + 1) := by
  rw [addOne_nat k hk]
  exact toJSString_nat (k + 1) hk

theorem roundToDouble_isNaN (n : Int) : (roundToDouble n).isNaN = false := by
  unfold roundToDouble
  simp only []
  split_ifs <;> rfl

theorem addOne_isNaN (x : JSNum) (h : x.isNaN = false) : x.addOne.isNaN = false := by
  cases x with
  | nan => exact absurd h (by decide)
  | int n => exact roundToDouble_isNaN (n + 1)
  | inf b => rfl

theorem orZero_of_isNaN_false (x : JSNum) (h : x.isNaN = false) : x.orZero = x := by
  cases x with
  | nan => exact absurd h (by decide)
  | int n => rfl
  | inf b => rfl

/-- C20 (amended): for every well-formed local version `M.m.p` without pre-release whose
major and minor are safe integers, the version `Main` computes by itself is
`generateVersion(bumpPatch(true))`, and it is `M.m.(p+1)` when the patch is a safe integer
too; for every well-formed local version `M.m.p-t.n` with a pre-release whose value is a
safe integer it is `M.m.p-t.(n+1)`: the pre-release value is incremented, major, minor,
patch and type are kept. -/
theorem autoVersion_wellFormed (M m p : Nat) (t : PreName) (n : Nat) :
    (IsSafe M → IsSafe m →
      ∃ s, autoVersion (versionString M m p none) = some s
        ∧ (bumpPatch (versionString M m p none) Directive.bare none).map generateVersion
          = Except.ok s)
    ∧ (IsSafe p →
      autoVersion (versionString M m p none) = some (versionString M m (p + 1) none))
    ∧ (IsSafe M → IsSafe m → IsSafe p →
      (bumpPatch (versionString M m p none) Directive.bare none).map generateVersion
        = Except.ok (versionString M m (p + 1) none))
    ∧ (IsSafe n →
      autoVersion (versionString M m p (some (t, n)))
        = some (versionString M m p (some (t, n + 1)))) := by
  refine ⟨?_, ?_, ?_, ?_⟩
  · intro hM hm
    have hs : split '.' (versionString M m p none)
        = [Nat.toDigits 10 M, Nat.toDigits 10 m, Nat.toDigits 10 p] := split_dot_core M m p
    have hv : versionOrLocal none (versionString M m p none) = versionString M m p none := rfl
    have hpv := parseVersion_versionString (versionString M m p none) none M m p none hv
    have hna := addOne_isNaN _ (roundToDouble_isNaN p)
    refine ⟨Nat.toDigits 10 M ++ '.' :: (Nat.toDigits 10 m
      ++ '.' :: (roundToDouble p).addOne.toJSString), ?_, ?_⟩
    · unfold autoVersion
      rw [hs]
      simp [parseIntArg, parseInt_toDigits, roundToDouble_isNaN, join]
    · unfold bumpPatch
      rw [hpv, roundToDouble_nat M (Nat.le_of_lt hM), roundToDouble_nat m (Nat.le_of_lt hm)]
      simp [setAlpha, clearPre, JSNum.isNaN, Directive.isAlpha, parseInt_bare, preOf, textPre,
        Except.map, generateVersion, JSNum.orZero,
        toJSString_nat M (Nat.le_of_lt hM), toJSString_nat m (Nat.le_of_lt hm)]
      exact congrArg JSNum.toJSString (orZero_of_isNaN_false _ hna)
  · intro hp
    have hs : split '.' (versionString M m p none)
        = [Nat.toDigits 10 M, Nat.toDigits 10 m, Nat.toDigits 10 p] := split_dot_core M m p
    unfold autoVersion
    rw [hs]
    simp [parseIntArg, parseInt_toDigits_exact p (Nat.le_of_lt hp), JSNum.isNaN,
      addOne_toJSString p hp, join, versionString, textVersion, coreString]
  · intro hM hm hp
    have hv : versionOrLocal none (versionString M m p none) = versionString M m p none := rfl
    have hpv := parseVersion_safe (versionString M m p none) none M m p none hv hM hm hp
    have hres : bumpPatch (versionString M m p none) Directive.bare none = Except.ok
        { major := JSNum.int M, minor := JSNum.int m, patch := JSNum.int ((p + 1 : Nat) : Int),
          pre := preOf none, raw := versionString M m p none } := by
      unfold bumpPatch
      rw [hpv]
      simp [setAlpha, clearPre, JSNum.isNaN, addOne_nat p hp, Directive.isAlpha,
        parseInt_bare, preOf, textPre]
    rw [hres]
    simp only [Except.map]
    rw [generateVersion_exact _ M m (p + 1) none rfl rfl rfl (Nat.le_of_lt hM)
      (Nat.le_of_lt hm) hp rfl]
  · intro hn
    unfold autoVersion
    rw [split_dot_versionString_some]
    simp [parseIntArg, parseInt_toDigits_exact n (Nat.le_of_lt hn), JSNum.isNaN,
      addOne_toJSString n hn, join, versionString, textVersion, coreString]

/-- Witness of C20: the local versions `1.2.3` and `1.2.3-rc.9`. -/
theorem autoVersion_wellFormed_witness :
    (∃ s, autoVersion (versionString 1 2 3 none) = some s
      ∧ (bumpPatch (versionString 1 2 3 none) Directive.bare none).map generateVersion
        = Except.ok s)
    ∧ autoVersion (versionString 1 2 3 none) = some (versionString 1 2 (3 + 1) none)
    ∧ (bumpPatch (versionString 1 2 3 none) Directive.bare none).map generateVersion
        = Except.ok (versionString 1 2 (3 + 1) none)
    ∧ autoVersion (versionString 1 2 3 (some (PreName.rc, 9)))
        = some (versionString 1 2 3 (some (PreName.rc, 9 + 1))) :=
  have h := autoVersion_wellFormed 1 2 3 PreName.rc 9
  ⟨h.1 (by decide) (by decide), h.2.1 (by decide), h.2.2.1 (by decide) (by decide) (by decide),
    h.2.2.2 (by decide)⟩

end Bump
